import Mathlib

/-!
# Shortest-path server (`main.go`): embedding and verification

The Go program is embedded shallowly.

* A Go `string` / `[]byte` is a list of bytes (`GoString`); a byte is a `Nat`
  below 256.  `str` turns a Lean string literal into its UTF-8 bytes.
* A Go `error` is a value of `GoError`, one constructor per dynamic type that
  the program and the library calls it makes can produce.
* `log.Fatal` and run-time panics are results of the `Outcome` type.
* The external graph package (`github.com/ajtfj/graph`) is a parameter
  (`GraphAPI`), its graph an abstract state that is passed explicitly.
* The library calls the program makes (`strings.Split`, `strconv.ParseInt`,
  `bufio.Scanner`, `encoding/json`, `uuid`) are modelled after the library
  sources: `int` has 64 bits, `encoding/json` escapes control characters as
  before Go 1.22, and `uuid.ParseBytes` is that of version 1.3.  The tables of
  `strconv.IsPrint` for runes above U+00FF are a parameter of the error texts.
* Input and output are at the boundary: `setupGraph` takes the result of
  `os.Open` with the content of the file, which the `bufio.Scanner` cuts into
  lines; the consume loop takes the bodies of the deliveries and an abstract
  channel to publish on.  Calls of the `log` package that only print are left
  out.
-/

namespace PathServer

/-! ## Go strings -/

/-- Go `string` and `[]byte`: a sequence of bytes. -/
abbrev GoString := List Nat

/-- UTF-8 encoding of one code point (`utf8.AppendRune` on a valid rune). -/
def encodeRune (r : Nat) : GoString :=
  if r < 0x80 then [r]
  else if r < 0x800 then [0xC0 + r / 64, 0x80 + r % 64]
  else if r < 0x10000 then [0xE0 + r / 4096, 0x80 + r / 64 % 64, 0x80 + r % 64]
  else [0xF0 + r / 262144, 0x80 + r / 4096 % 64, 0x80 + r / 64 % 64, 0x80 + r % 64]

/-- The bytes of a string literal. -/
def str (s : String) : GoString :=
  s.toList.flatMap (fun c => encodeRune c.toNat)

/-! ## Errors and outcomes -/

/-- The Go `error` values of the program, by dynamic type. -/
inductive GoError where
  /-- Type `*errors.errorString`: made by `errors.New` and by `fmt.Errorf` without `%w`. -/
  | errorString (s : GoString)
  /-- The `*errors.errorString` that `fmt.Errorf("invalid urn prefix: %q", head)` makes in
  `uuid.ParseBytes`; its text is formatted in `GoError.Error`. -/
  | invalidUrnError (head : GoString)
  /-- Type `*strconv.NumError`. -/
  | numError (Func : GoString) (Num : GoString) (Err : GoError)
  /-- Type `*json.SyntaxError`: unexported `msg`, exported `Offset`. -/
  | syntaxError (msg : GoString) (Offset : Nat)
  /-- Type `*json.UnmarshalTypeError`; `Typ` is the name of the `Type` field's value. -/
  | unmarshalTypeError (Value : GoString) (Typ : GoString) (Offset : Nat)
      (Struct : GoString) (Field : GoString)
  /-- Type `uuid.invalidLengthError`: one unexported field `len`. -/
  | invalidLengthError (len : Nat)
  deriving DecidableEq

/-- What a call can end in: it returns, `log.Fatal` ends the process, or the
goroutine panics. -/
inductive Outcome (α : Type) where
  | ret (a : α)
  | fatal (err : GoError)
  | panic (msg : GoString)
  deriving DecidableEq

/-! ## The graph package -/

/-- Type `graph.Node`: a string type. -/
abbrev Node := GoString

/-- The part of `github.com/ajtfj/graph` that the program calls, over an
abstract graph state `G`.  A Go slice result is `none` when nil. -/
structure GraphAPI (G : Type) where
  NewGraph : G
  AddEdge : G → Node → Node → Int → G
  ShortestPath : G → Node → Node → Except GoError (Option (List Node)) × G

/-! ## `strings.Split(s, " ")` -/

/-- Function `strings.Split(s, sep)` for a one-byte separator: the pieces between the
occurrences of `sep`, one more piece than there are occurrences. -/
def Split (s : GoString) (sep : Nat) : List GoString :=
  match s with
  | [] => [[]]
  | c :: cs =>
    if c = sep then [] :: Split cs sep
    else
      match Split cs sep with
      | [] => [[c]]
      | t :: ts => (c :: t) :: ts

/-! ## `strconv.ParseInt(s, 10, bitSize)` -/

/-- Constant `strconv.IntSize` on a 64-bit platform. -/
def IntSize : Nat := 64

/-- Constant `strconv.ErrSyntax`. -/
def ErrSyntax : GoError := .errorString (str "invalid syntax")

/-- Constant `strconv.ErrRange`. -/
def ErrRange : GoError := .errorString (str "value out of range")

/-- Function `strconv.syntaxError(fn, str)`. -/
def syntaxError (fn s : GoString) : GoError := .numError fn s ErrSyntax

/-- Function `strconv.rangeError(fn, str)`. -/
def rangeError (fn s : GoString) : GoError := .numError fn s ErrRange

/-- Function `strconv.lower`: `c | ('x' - 'X')` on a byte. -/
def lower (c : Nat) : Nat := c ||| 0x20

/-- The digit value `d` that the loop of `strconv.ParseUint` reads from byte `c`:
decimal digits, then letters (case-folded) from 10 up; `none` in the `default` case.
The underscore case needs `base == 0` and never applies in base 10. -/
def digitValue (c : Nat) : Option Nat :=
  if 48 ≤ c ∧ c ≤ 57 then some (c - 48)
  else if 97 ≤ lower c ∧ lower c ≤ 122 then some (lower c - 97 + 10)
  else none

/-- The digit loop of `strconv.ParseUint` in base 10.  `n` is the `uint64`
accumulator, `s0` the whole argument (for the error value).  The result is the
pair of the value and the error returned. -/
def parseUintLoop (s0 : GoString) (maxVal : Nat) : GoString → Nat → Nat × Option GoError
  | [], n => (n, none)
  | c :: cs, n =>
    match digitValue c with
    | none => (0, some (syntaxError (str "ParseUint") s0))
    | some d =>
      if d ≥ 10 then (0, some (syntaxError (str "ParseUint") s0))
      -- cutoff = maxUint64/10 + 1: n*base overflows
      else if n ≥ (2 ^ 64 - 1) / 10 + 1 then (maxVal, some (rangeError (str "ParseUint") s0))
      else
        let n10 := (n * 10) % 2 ^ 64
        let n1 := (n10 + d) % 2 ^ 64
        -- n+d overflows
        if n1 < n10 ∨ n1 > maxVal then (maxVal, some (rangeError (str "ParseUint") s0))
        else parseUintLoop s0 maxVal cs n1

/-- Function `strconv.ParseUint(s, 10, bitSize)` for `0 ≤ bitSize ≤ 64`: the
value and the error returned. -/
def ParseUint (s : GoString) (bitSize : Nat) : Nat × Option GoError :=
  if s = [] then (0, some (syntaxError (str "ParseUint") s))
  else
    let bitSize := if bitSize = 0 then IntSize else bitSize
    let maxVal := 2 ^ bitSize - 1
    parseUintLoop s maxVal s 0

/-- Function `strconv.ParseInt(s, 10, bitSize)` for `0 ≤ bitSize ≤ 64`: the
value and the error returned.  The conversion `int64(un)` and the negation
wrap around only for `un = 2^63` with a minus sign, where they give `-2^63`. -/
def ParseInt (s : GoString) (bitSize : Nat) : Int × Option GoError :=
  match s with
  | [] => (0, some (syntaxError (str "ParseInt") s))
  | c :: cs =>
    -- Pick off leading sign.
    let s0 := s
    let neg := c = 45
    let s := if c = 43 then cs else if c = 45 then cs else s
    -- Convert unsigned and check range.
    let (un, err) := ParseUint s bitSize
    let bitSize := if bitSize = 0 then IntSize else bitSize
    let cutoff := 2 ^ (bitSize - 1)
    let checked : Int × Option GoError :=
      if ¬ neg ∧ un ≥ cutoff then ((cutoff : Int) - 1, some (rangeError (str "ParseInt") s0))
      else if neg ∧ un > cutoff then (-(cutoff : Int), some (rangeError (str "ParseInt") s0))
      else (if neg then -(un : Int) else (un : Int), none)
    match err with
    | some (.numError _ _ e) =>
      -- err.Func = fnParseInt; err.Num = s0
      if e ≠ ErrRange then (0, some (.numError (str "ParseInt") s0 e)) else checked
    | _ => checked

/-- The digit loop of `strconv.formatBits` in base 10: the digits of `u` are
put in front of `acc`, least significant first; `fuel` bounds the iterations. -/
def formatBits : Nat → Nat → GoString → GoString
  | 0, u, acc => (48 + u % 10) :: acc
  | fuel + 1, u, acc =>
    if u ≥ 10 then formatBits fuel (u / 10) ((48 + u % 10) :: acc)
    else (48 + u) :: acc

/-- Function `strconv.Itoa(w)`: the decimal rendering of an `int`. -/
def Itoa (w : Int) : GoString :=
  if w < 0 then 45 :: formatBits w.natAbs w.natAbs []
  else formatBits w.natAbs w.natAbs []

/-! ## Graph loading -/

/-- The function `parceGraphInputLine` of `main.go`; the values returned next
to an error are left out. -/
def parceGraphInputLine (inputLine : GoString) : Except GoError (Node × Node × Int) :=
  let matches_ := Split inputLine 32
  if matches_.length < 3 then .error (.errorString (str "invalid input"))
  else
    let (weight, err) := ParseInt (matches_.getD 2 []) 0
    match err with
    | some err => .error err
    | none => .ok (matches_.getD 0 [], matches_.getD 1 [], weight)

/-- The loop `for scanner.Scan() { ... }` of `setupGraph` over the lines that
`scanner.Text` gives, from graph state `g`: the graph reached and the error
returned. -/
def setupGraphLoop {G : Type} (api : GraphAPI G) : G → List GoString → G × Option GoError
  | g, [] => (g, none)
  | g, inputLine :: rest =>
    match parceGraphInputLine inputLine with
    | .error err => (g, some err)
    | .ok (u, v, weight) => setupGraphLoop api (api.AddEdge g u v weight) rest

/-- Constant `bufio.MaxScanTokenSize`, the size to which a `bufio.Scanner` lets
its buffer grow when `Buffer` is not called. -/
def MaxScanTokenSize : Nat := 64 * 1024

/-- Function `dropCR` of `bufio`: the line without a carriage return at its end. -/
def dropCR (data : GoString) : GoString :=
  if data.getLast? = some 13 then data.dropLast else data

/-- The calls of `scanner.Scan` with `bufio.ScanLines` on the rest `data` of the
file, `line` being the bytes of the current line read so far, last first: the
tokens that `scanner.Text` gives until `Scan` returns false.  A line ends at a
newline or at the end of the file; no token is given for nothing at the end of
the file.  A line of `MaxScanTokenSize` bytes or more fills the buffer before
its end is seen: `Scan` sets `ErrTooLong` and returns false there. -/
def scanLoop : GoString → GoString → List GoString
  | [], line =>
    if line = [] then []
    else if line.length ≥ MaxScanTokenSize then []
    else [dropCR line.reverse]
  | c :: data, line =>
    if c = 10 then
      if line.length ≥ MaxScanTokenSize then []
      else dropCR line.reverse :: scanLoop data []
    else scanLoop data (c :: line)

/-- The lines that the loop `for scanner.Scan()` of `setupGraph` sees for a file
of content `data`, reading which does not fail. -/
def scanLines (data : GoString) : List GoString := scanLoop data []

/-- The function `setupGraph` of `main.go`.  `file` is what `os.Open(GRAPH_FILE)`
gives: an error, or the file with its content.  The loop ends when `Scan`
returns false, and `scanner.Err()` is not read.  The result is the global `g`
afterwards and the error returned. -/
def setupGraph {G : Type} (api : GraphAPI G) (file : Except GoError GoString) :
    G × Option GoError :=
  let g := api.NewGraph
  match file with
  | .error err => (g, some err)
  | .ok data => setupGraphLoop api g (scanLines data)

/-- The function `init` of `main.go`: `log.Fatal` on an error of `setupGraph`. -/
def init {G : Type} (api : GraphAPI G) (file : Except GoError GoString) : Outcome G :=
  match setupGraph api file with
  | (_, some err) => .fatal err
  | (g, none) => .ret g

/-! ## UTF-8 and quoting -/

/-- Constant `utf8.RuneError`, U+FFFD. -/
def RuneError : Nat := 0xFFFD

/-- Function `utf8.DecodeRune`: the first rune of `p` and its width in bytes;
`(RuneError, 1)` for an invalid encoding and `(RuneError, 0)` for no input. -/
def DecodeRune (p : GoString) : Nat × Nat :=
  match p with
  | [] => (RuneError, 0)
  | p0 :: rest =>
    if p0 < 0x80 then (p0, 1)
    else if p0 < 0xC2 then (RuneError, 1)
    else if p0 ≤ 0xDF then
      match rest with
      | b1 :: _ =>
        if 0x80 ≤ b1 ∧ b1 ≤ 0xBF then (p0 % 32 * 64 + b1 % 64, 2) else (RuneError, 1)
      | _ => (RuneError, 1)
    else if p0 ≤ 0xEF then
      let lo := if p0 = 0xE0 then 0xA0 else 0x80
      let hi := if p0 = 0xED then 0x9F else 0xBF
      match rest with
      | b1 :: b2 :: _ =>
        if lo ≤ b1 ∧ b1 ≤ hi ∧ 0x80 ≤ b2 ∧ b2 ≤ 0xBF then
          (p0 % 16 * 4096 + b1 % 64 * 64 + b2 % 64, 3)
        else (RuneError, 1)
      | _ => (RuneError, 1)
    else if p0 ≤ 0xF4 then
      let lo := if p0 = 0xF0 then 0x90 else 0x80
      let hi := if p0 = 0xF4 then 0x8F else 0xBF
      match rest with
      | b1 :: b2 :: b3 :: _ =>
        if lo ≤ b1 ∧ b1 ≤ hi ∧ 0x80 ≤ b2 ∧ b2 ≤ 0xBF ∧ 0x80 ≤ b3 ∧ b3 ≤ 0xBF then
          (p0 % 8 * 262144 + b1 % 64 * 4096 + b2 % 64 * 64 + b3 % 64, 4)
        else (RuneError, 1)
      | _ => (RuneError, 1)
    else (RuneError, 1)

/-- A lower-case hexadecimal digit. -/
def hexDigit (n : Nat) : Nat := if n < 10 then 48 + n else 87 + n

/-- The last `k` hexadecimal digits of `n`. -/
def hexFixed : Nat → Nat → GoString
  | 0, _ => []
  | k + 1, n => hexFixed k (n / 16) ++ [hexDigit (n % 16)]

/-- Function `strconv.IsPrint` on a rune up to U+00FF, its check for Latin-1;
this is all that a byte can be. -/
def isPrintLatin1 (r : Nat) : Bool :=
  (0x20 ≤ r ∧ r ≤ 0x7E) ∨ (0xA1 ≤ r ∧ r ≤ 0xFF ∧ r ≠ 0xAD)

/-- Function `strconv.IsPrint`.  Above U+00FF it looks the rune up in the
tables of the package, which are a parameter here (`table`). -/
def IsPrint (table : Nat → Bool) (r : Nat) : Bool :=
  if r ≤ 0xFF then isPrintLatin1 r else table r

/-- Function `strconv.appendEscapedRune` with the double quote as quote
character; `isPrint` is the test for a printable rune. -/
def escapedRune (isPrint : Nat → Bool) (r : Nat) : GoString :=
  if r = 34 ∨ r = 92 then [92, r]
  else if isPrint r then encodeRune r
  else if r = 7 then str "\\a"
  else if r = 8 then str "\\b"
  else if r = 12 then str "\\f"
  else if r = 10 then str "\\n"
  else if r = 13 then str "\\r"
  else if r = 9 then str "\\t"
  else if r = 11 then str "\\v"
  else if r < 32 ∨ r = 0x7F then str "\\x" ++ hexFixed 2 r
  else if r < 0x10000 then str "\\u" ++ hexFixed 4 r
  else str "\\U" ++ hexFixed 8 r

/-- The body of `strconv.Quote(s)`, between the quotes; `pending` counts the
continuation bytes of the rune being skipped. -/
def quoteBody (table : Nat → Bool) : GoString → Nat → GoString
  | [], _ => []
  | _ :: cs, pending + 1 => quoteBody table cs pending
  | c :: cs, 0 =>
    let (r, width) := DecodeRune (c :: cs)
    if width = 1 ∧ r = RuneError then str "\\x" ++ hexFixed 2 c ++ quoteBody table cs 0
    else escapedRune (IsPrint table) r ++ quoteBody table cs (width - 1)

/-- Function `strconv.Quote`, over the tables of `strconv.IsPrint`. -/
def Quote (table : Nat → Bool) (s : GoString) : GoString := 34 :: quoteBody table s 0 ++ [34]

/-- Function `quoteChar` of `encoding/json`: a byte in single quotes for an
error message.  The byte is quoted as the rune of its value, which is at most
U+00FF. -/
def quoteChar (c : Nat) : GoString :=
  if c = 39 then str "'\\''"
  else if c = 34 then str "'\"'"
  else 39 :: escapedRune isPrintLatin1 c ++ [39]

/-- Decimal rendering of a natural number (`strconv.FormatInt` of a value ≥ 0). -/
def formatNat (n : Nat) : GoString := formatBits n n []

/-- The text of `err.Error()`, over the tables of `strconv.IsPrint` that
`strconv.Quote` and the verb `%q` use. -/
def GoError.Error (table : Nat → Bool) : GoError → GoString
  | .errorString s => s
  | .invalidUrnError head => str "invalid urn prefix: " ++ Quote table head
  | .numError fn num e =>
    str "strconv." ++ fn ++ str ": parsing " ++ Quote table num ++ str ": " ++ e.Error table
  | .syntaxError msg _ => msg
  | .unmarshalTypeError value typ _ struct_ field =>
    if struct_ ≠ [] ∨ field ≠ [] then
      str "json: cannot unmarshal " ++ value ++ str " into Go struct field " ++ struct_ ++
        str "." ++ field ++ str " of type " ++ typ
    else str "json: cannot unmarshal " ++ value ++ str " into Go value of type " ++ typ
  | .invalidLengthError len => str "invalid UUID length: " ++ formatNat len

/-! ## `encoding/json`: the scanner -/

/-- A JSON value as the decoder sees it, with the input offset that a type
error about it reports: the end of a literal, one past the opening bracket of
an array or object. -/
inductive JValue where
  | null (off : Nat)
  | bool (off : Nat)
  | number (off : Nat)
  | string (s : GoString) (off : Nat)
  | array (elems : List JValue) (off : Nat)
  | object (members : List (GoString × JValue)) (off : Nat)

/-- The scanner's `parseState` entries. -/
inductive ParseState where
  | parseObjectKey
  | parseObjectValue
  | parseArrayValue
  deriving DecidableEq

/-- The scanner's `step` functions. -/
inductive Step where
  | beginValueOrEmpty | beginValue | beginStringOrEmpty | beginString
  | endValue | endTop
  | inString | inStringEsc | inStringEscU | inStringEscU1 | inStringEscU12 | inStringEscU123
  | neg | s1 | s0 | dot | dot0 | e | eSign | e0
  | t | tr | tru | f | fa | fal | fals | n | nu | nul
  | error
  deriving DecidableEq

/-- An array or object that is being read: its parse state, the offset one past
its opening bracket, the object key read last, and the members or elements
read so far, last first. -/
structure Frame where
  ps : ParseState
  off : Nat
  key : GoString
  members : List (GoString × JValue)
  elems : List JValue

/-- The scanner (`step`, `parseState` as the frames, `err`, `endTop`, `bytes`)
together with what the decoder collects: the raw bytes of the literal being
read, last first, and the top-level value once complete. -/
structure Scanner where
  step : Step
  frames : List Frame
  err : Option GoError
  endTop : Bool
  bytes : Nat
  lit : GoString
  top : Option JValue

/-- Function `scanner.reset`. -/
def Scanner.reset : Scanner :=
  { step := .beginValue, frames := [], err := none, endTop := false, bytes := 0,
    lit := [], top := none }

/-- Function `scanner.error`. -/
def Scanner.error (s : Scanner) (c : Nat) (context : String) : Scanner :=
  { s with
    step := .error
    err := some (.syntaxError
      (str "invalid character " ++ quoteChar c ++ str " " ++ str context) s.bytes) }

/-- Function `isSpace`. -/
def isSpace (c : Nat) : Bool := c ≤ 32 ∧ (c = 32 ∨ c = 9 ∨ c = 13 ∨ c = 10)

/-- Value of a hexadecimal digit byte. -/
def hexValue (c : Nat) : Option Nat :=
  if 48 ≤ c ∧ c ≤ 57 then some (c - 48)
  else if 97 ≤ c ∧ c ≤ 102 then some (c - 97 + 10)
  else if 65 ≤ c ∧ c ≤ 70 then some (c - 65 + 10)
  else none

/-- Function `getu4`: the rune of a `\uXXXX` escape at the start of `s`, if there is one. -/
def getu4 (s : GoString) : Option Nat :=
  match s with
  | 92 :: 117 :: a :: b :: c :: d :: _ =>
    match hexValue a, hexValue b, hexValue c, hexValue d with
    | some a, some b, some c, some d => some (((a * 16 + b) * 16 + c) * 16 + d)
    | _, _, _, _ => none
  | _ => none

/-- The loop of `unquoteBytes` on the inside of a string literal that the
scanner accepted.  `skip` counts bytes already accounted for: the rest of an
escape or of a multi-byte rune; `copy` tells whether they are output. -/
def unquoteLoop : GoString → Nat → Bool → GoString
  | [], _, _ => []
  | c :: cs, skip + 1, copy =>
    if copy then c :: unquoteLoop cs skip copy else unquoteLoop cs skip copy
  | c :: cs, 0, _ =>
    if c = 92 then
      match cs with
      | [] => []
      | 117 :: _ =>
        match getu4 (c :: cs) with
        | none => []
        | some rr =>
          if 0xD800 ≤ rr ∧ rr < 0xE000 then
            -- utf16.IsSurrogate: a valid pair is consumed, else the replacement rune
            match getu4 (cs.drop 5) with
            | some rr1 =>
              if rr < 0xDC00 ∧ 0xDC00 ≤ rr1 ∧ rr1 < 0xE000 then
                encodeRune ((rr - 0xD800) * 1024 + (rr1 - 0xDC00) + 0x10000) ++
                  unquoteLoop cs 11 false
              else encodeRune RuneError ++ unquoteLoop cs 5 false
            | none => encodeRune RuneError ++ unquoteLoop cs 5 false
          else encodeRune rr ++ unquoteLoop cs 5 false
      | e :: _ =>
        let b :=
          if e = 98 then 8 else if e = 102 then 12 else if e = 110 then 10
          else if e = 114 then 13 else if e = 116 then 9 else e
        b :: unquoteLoop cs 1 false
    else if c < 0x80 then c :: unquoteLoop cs 0 false
    else
      let (rr, size) := DecodeRune (c :: cs)
      if rr = RuneError ∧ size = 1 then encodeRune RuneError ++ unquoteLoop cs 0 false
      else c :: unquoteLoop cs (size - 1) true

/-- A value is complete: it becomes the key just read, a member or an element
of the innermost open object or array, or the top-level value. -/
def Scanner.emit (s : Scanner) (v : JValue) : Scanner :=
  match s.frames with
  | [] => { s with top := some v, lit := [] }
  | fr :: rest =>
    match fr.ps with
    | .parseObjectKey =>
      match v with
      | .string k _ => { s with frames := { fr with key := k } :: rest, lit := [] }
      | _ => { s with lit := [] }
    | .parseObjectValue =>
      { s with frames := { fr with members := (fr.key, v) :: fr.members } :: rest, lit := [] }
    | .parseArrayValue =>
      { s with frames := { fr with elems := v :: fr.elems } :: rest, lit := [] }

/-- Constant `maxNestingDepth`. -/
def maxNestingDepth : Nat := 10000

/-- Function `scanner.pushParseState`, entering `successState`. -/
def Scanner.pushParseState (s : Scanner) (c : Nat) (newParseState : ParseState)
    (successState : Step) : Scanner :=
  let s := { s with
    step := successState
    frames := { ps := newParseState, off := s.bytes, key := [], members := [], elems := [] }
      :: s.frames }
  if s.frames.length ≤ maxNestingDepth then s else s.error c "exceeded max depth"

/-- Function `scanner.popParseState`; the array or object that ends is a complete value. -/
def Scanner.popParseState (s : Scanner) : Scanner :=
  match s.frames with
  | [] => s
  | fr :: rest =>
    let v :=
      match fr.ps with
      | .parseArrayValue => JValue.array fr.elems.reverse fr.off
      | _ => JValue.object fr.members.reverse fr.off
    let s := { s with frames := rest }
    let s := if rest.isEmpty then { s with step := .endTop, endTop := true }
             else { s with step := .endValue }
    s.emit v

/-- Function `stateEndTop`. -/
def stateEndTop (s : Scanner) (c : Nat) : Scanner :=
  if ¬ isSpace c then s.error c "after top-level value" else s

/-- Function `stateEndValue`. -/
def stateEndValue (s : Scanner) (c : Nat) : Scanner :=
  match s.frames with
  | [] => stateEndTop { s with step := .endTop, endTop := true } c
  | fr :: rest =>
    if isSpace c then { s with step := .endValue }
    else
      match fr.ps with
      | .parseObjectKey =>
        if c = 58 then
          { s with frames := { fr with ps := .parseObjectValue } :: rest, step := .beginValue }
        else s.error c "after object key"
      | .parseObjectValue =>
        if c = 44 then
          { s with frames := { fr with ps := .parseObjectKey } :: rest, step := .beginString }
        else if c = 125 then s.popParseState
        else s.error c "after object key:value pair"
      | .parseArrayValue =>
        if c = 44 then { s with step := .beginValue }
        else if c = 93 then s.popParseState
        else s.error c "after array element"

/-- Function `stateBeginValue`. -/
def stateBeginValue (s : Scanner) (c : Nat) : Scanner :=
  if isSpace c then s
  else if c = 123 then s.pushParseState c .parseObjectKey .beginStringOrEmpty
  else if c = 91 then s.pushParseState c .parseArrayValue .beginValueOrEmpty
  else if c = 34 then { s with step := .inString, lit := [] }
  else if c = 45 then { s with step := .neg }
  else if c = 48 then { s with step := .s0 }
  else if c = 116 then { s with step := .t }
  else if c = 102 then { s with step := .f }
  else if c = 110 then { s with step := .n }
  else if 49 ≤ c ∧ c ≤ 57 then { s with step := .s1 }
  else s.error c "looking for beginning of value"

/-- Function `stateBeginString`. -/
def stateBeginString (s : Scanner) (c : Nat) : Scanner :=
  if isSpace c then s
  else if c = 34 then { s with step := .inString, lit := [] }
  else s.error c "looking for beginning of object key string"

/-- Function `stateBeginStringOrEmpty`. -/
def stateBeginStringOrEmpty (s : Scanner) (c : Nat) : Scanner :=
  if isSpace c then s
  else if c = 125 then
    match s.frames with
    | fr :: rest => stateEndValue { s with frames := { fr with ps := .parseObjectValue } :: rest } c
    | [] => stateEndValue s c
  else stateBeginString s c

/-- Function `stateBeginValueOrEmpty`. -/
def stateBeginValueOrEmpty (s : Scanner) (c : Nat) : Scanner :=
  if isSpace c then s
  else if c = 93 then stateEndValue s c
  else stateBeginValue s c

/-- A step inside a literal where only byte `want` may follow. -/
def expectByte (s : Scanner) (c want : Nat) (next : Step) (context : String) : Scanner :=
  if c = want then { s with step := next } else s.error c context

/-- Function `state0`; a number that ends here has its end at `litEnd`. -/
def state0 (s : Scanner) (c litEnd : Nat) : Scanner :=
  if c = 46 then { s with step := .dot }
  else if c = 101 ∨ c = 69 then { s with step := .e }
  else stateEndValue (s.emit (.number litEnd)) c

/-- Function `stateESign`. -/
def stateESign (s : Scanner) (c : Nat) : Scanner :=
  if 48 ≤ c ∧ c ≤ 57 then { s with step := .e0 }
  else s.error c "in exponent of numeric literal"

/-- One call `s.step(s, c)` of the scanner, `s.bytes` counting `c` already.
`litEnd` is the offset at which a number ends that `c` does not continue. -/
def scanStep (s : Scanner) (c litEnd : Nat) : Scanner :=
  match s.step with
  | .error => s
  | .beginValueOrEmpty => stateBeginValueOrEmpty s c
  | .beginValue => stateBeginValue s c
  | .beginStringOrEmpty => stateBeginStringOrEmpty s c
  | .beginString => stateBeginString s c
  | .endValue => stateEndValue s c
  | .endTop => stateEndTop s c
  | .inString =>
    if c = 34 then
      { s with step := .endValue }.emit (.string (unquoteLoop s.lit.reverse 0 false) s.bytes)
    else if c = 92 then { s with step := .inStringEsc, lit := c :: s.lit }
    else if c < 32 then s.error c "in string literal"
    else { s with lit := c :: s.lit }
  | .inStringEsc =>
    if c = 98 ∨ c = 102 ∨ c = 110 ∨ c = 114 ∨ c = 116 ∨ c = 92 ∨ c = 47 ∨ c = 34 then
      { s with step := .inString, lit := c :: s.lit }
    else if c = 117 then { s with step := .inStringEscU, lit := c :: s.lit }
    else s.error c "in string escape code"
  | .inStringEscU =>
    if (hexValue c).isSome then { s with step := .inStringEscU1, lit := c :: s.lit }
    else s.error c "in \\u hexadecimal character escape"
  | .inStringEscU1 =>
    if (hexValue c).isSome then { s with step := .inStringEscU12, lit := c :: s.lit }
    else s.error c "in \\u hexadecimal character escape"
  | .inStringEscU12 =>
    if (hexValue c).isSome then { s with step := .inStringEscU123, lit := c :: s.lit }
    else s.error c "in \\u hexadecimal character escape"
  | .inStringEscU123 =>
    if (hexValue c).isSome then { s with step := .inString, lit := c :: s.lit }
    else s.error c "in \\u hexadecimal character escape"
  | .neg =>
    if c = 48 then { s with step := .s0 }
    else if 49 ≤ c ∧ c ≤ 57 then { s with step := .s1 }
    else s.error c "in numeric literal"
  | .s1 => if 48 ≤ c ∧ c ≤ 57 then s else state0 s c litEnd
  | .s0 => state0 s c litEnd
  | .dot =>
    if 48 ≤ c ∧ c ≤ 57 then { s with step := .dot0 }
    else s.error c "after decimal point in numeric literal"
  | .dot0 =>
    if 48 ≤ c ∧ c ≤ 57 then s
    else if c = 101 ∨ c = 69 then { s with step := .e }
    else stateEndValue (s.emit (.number litEnd)) c
  | .e => if c = 43 ∨ c = 45 then { s with step := .eSign } else stateESign s c
  | .eSign => stateESign s c
  | .e0 => if 48 ≤ c ∧ c ≤ 57 then s else stateEndValue (s.emit (.number litEnd)) c
  | .t => expectByte s c 114 .tr "in literal true (expecting 'r')"
  | .tr => expectByte s c 117 .tru "in literal true (expecting 'u')"
  | .tru =>
    if c = 101 then { s with step := .endValue }.emit (.bool s.bytes)
    else s.error c "in literal true (expecting 'e')"
  | .f => expectByte s c 97 .fa "in literal false (expecting 'a')"
  | .fa => expectByte s c 108 .fal "in literal false (expecting 'l')"
  | .fal => expectByte s c 115 .fals "in literal false (expecting 's')"
  | .fals =>
    if c = 101 then { s with step := .endValue }.emit (.bool s.bytes)
    else s.error c "in literal false (expecting 'e')"
  | .n => expectByte s c 117 .nu "in literal null (expecting 'u')"
  | .nu => expectByte s c 108 .nul "in literal null (expecting 'l')"
  | .nul =>
    if c = 108 then { s with step := .endValue }.emit (.null s.bytes)
    else s.error c "in literal null (expecting 'l')"

/-- The loop of `checkValid`: every byte is counted and given to the scanner,
until the scanner is in error. -/
def scanAll : GoString → Scanner → Scanner
  | [], s => s
  | c :: cs, s =>
    if s.err.isSome then s
    else scanAll cs (scanStep { s with bytes := s.bytes + 1 } c s.bytes)

/-- Function `scanner.eof` after the loop of `checkValid`: the syntax error of the
input, or the value read. -/
def Scanner.eof (s : Scanner) : Except GoError JValue :=
  let unexpectedEnd : GoError := .syntaxError (str "unexpected end of JSON input") s.bytes
  match s.err with
  | some err => .error err
  | none =>
    let s := if s.endTop then s else scanStep s 32 s.bytes
    if s.endTop then
      match s.top with
      | some v => .ok v
      | none => .error unexpectedEnd
    else
      match s.err with
      | some err => .error err
      | none => .error unexpectedEnd

/-- Function `checkValid(data, scan)`, with the value that the decoder then reads. -/
def checkValid (data : GoString) : Except GoError JValue :=
  (scanAll data Scanner.reset).eof

/-! ## `github.com/google/uuid` -/

/-- Type `uuid.UUID`, a `[16]byte`. -/
abbrev UUID := List Nat

/-- Constant `uuid.Nil`, the zero value. -/
def UUID.Nil : UUID := List.replicate 16 0

/-- Function `xtob`: the byte that two hexadecimal digits denote. -/
def xtob (x1 x2 : Nat) : Option Nat :=
  match hexValue x1, hexValue x2 with
  | some b1, some b2 => some (b1 * 16 + b2)
  | _, _ => none

/-- The loops of `uuid.ParseBytes`: the bytes that the digit pairs at the
given positions of `b` denote, `none` at the first pair that is not hexadecimal. -/
def hexPairs (b : GoString) : List Nat → Option (List Nat)
  | [] => some []
  | x :: xs =>
    match xtob (b.getD x 0) (b.getD (x + 1) 0) with
    | none => none
    | some v =>
      match hexPairs b xs with
      | none => none
      | some vs => some (v :: vs)

/-- Whether the nine bytes `b` are `urn:uuid:` in any letter case. -/
def hasUrnScheme (b : GoString) : Bool :=
  b.map (fun c => if 65 ≤ c ∧ c ≤ 90 then c + 32 else c) = str "urn:uuid:"

/-- Function `uuid.ParseBytes`, as in version 1.3 of the package: the forms
of 36 bytes, of 45 bytes with the `urn:uuid:` prefix, of 38 bytes with one
byte before and after, and of 32 hexadecimal digits. -/
def ParseBytes (b : GoString) : Except GoError UUID :=
  let invalidFormat : GoError := .errorString (str "invalid UUID format")
  let dashed (b : GoString) : Except GoError UUID :=
    if b.getD 8 0 ≠ 45 ∨ b.getD 13 0 ≠ 45 ∨ b.getD 18 0 ≠ 45 ∨ b.getD 23 0 ≠ 45 then
      .error invalidFormat
    else
      match hexPairs b [0, 2, 4, 6, 9, 11, 14, 16, 19, 21, 24, 26, 28, 30, 32, 34] with
      | none => .error invalidFormat
      | some uuid => .ok uuid
  if b.length = 36 then dashed b
  else if b.length = 36 + 9 then
    if ¬ hasUrnScheme (b.take 9) then
      .error (.invalidUrnError (b.take 9))
    else dashed (b.drop 9)
  else if b.length = 36 + 2 then dashed (b.drop 1)
  else if b.length = 32 then
    match hexPairs b [0, 2, 4, 6, 8, 10, 12, 14, 16, 18, 20, 22, 24, 26, 28, 30] with
    | none => .error invalidFormat
    | some uuid => .ok uuid
  else .error (.invalidLengthError b.length)

/-- Function `hex.Encode`. -/
def hexEncode (src : List Nat) : GoString :=
  src.flatMap fun b => [hexDigit (b / 16 % 16), hexDigit (b % 16)]

/-- Function `UUID.String`: the form `xxxxxxxx-xxxx-xxxx-xxxx-xxxxxxxxxxxx`. -/
def UUID.String (uuid : UUID) : GoString :=
  hexEncode (uuid.take 4) ++ 45 :: hexEncode ((uuid.drop 4).take 2) ++
    45 :: hexEncode ((uuid.drop 6).take 2) ++ 45 :: hexEncode ((uuid.drop 8).take 2) ++
    45 :: hexEncode (uuid.drop 10)

/-! ## `encoding/json`: decoding into `RequestPayload` -/

/-- The type `RequestPayload` of `main.go`. -/
structure RequestPayload where
  Ori : Node
  Dest : Node
  ClientUUID : UUID
  deriving DecidableEq

/-- The zero value `RequestPayload{}`. -/
def RequestPayload.zero : RequestPayload := { Ori := [], Dest := [], ClientUUID := UUID.Nil }

/-- The fields of `RequestPayload`. -/
inductive Field where
  | Ori
  | Dest
  | ClientUUID
  deriving DecidableEq

/-- The JSON name of a field, from its tag. -/
def Field.name : Field → GoString
  | .Ori => str "ori"
  | .Dest => str "dest"
  | .ClientUUID => str "client_uuid"

/-- Case-insensitive match of an object key `t` with the ASCII field name `s`
(`equalFoldRight`): ASCII letters match in either case, and `s` and `k` match
the long s U+017F and the Kelvin sign U+212A. -/
def equalFold : GoString → GoString → Bool
  | [], t => t.isEmpty
  | sb :: s, t =>
    match t with
    | [] => false
    | tb :: ts =>
      if tb < 0x80 then
        if sb ≠ tb then
          let sbUpper := sb &&& 0xDF
          if 65 ≤ sbUpper ∧ sbUpper ≤ 90 ∧ sbUpper = tb &&& 0xDF then equalFold s ts else false
        else equalFold s ts
      else
        let (tr, size) := DecodeRune t
        if (sb = 115 ∨ sb = 83) ∧ tr = 0x17F then equalFold s (t.drop size)
        else if (sb = 107 ∨ sb = 75) ∧ tr = 0x212A then equalFold s (t.drop size)
        else false

/-- The field that an object key names: the exact name, else the first field
whose name matches case-insensitively. -/
def findField (key : GoString) : Option Field :=
  match [Field.Ori, .Dest, .ClientUUID].find? (fun f => f.name = key) with
  | some f => some f
  | none => [Field.Ori, .Dest, .ClientUUID].find? (fun f => equalFold f.name key)

/-- The decoder (`decodeState`): the value being filled and `savedError`. -/
structure DecodeState where
  v : RequestPayload
  savedError : Option GoError

/-- Function `decodeState.saveError`: the first error is kept. -/
def DecodeState.saveError (d : DecodeState) (err : GoError) : DecodeState :=
  if d.savedError.isNone then { d with savedError := some err } else d

/-- The JSON kind named in an `UnmarshalTypeError`, with the offset reported;
`none` for `null` and for a string. -/
def JValue.mismatch : JValue → Option (GoString × Nat)
  | .null _ => none
  | .string _ _ => none
  | .bool off => some (str "bool", off)
  | .number off => some (str "number", off)
  | .array _ off => some (str "array", off)
  | .object _ off => some (str "object", off)

/-- Decoding the value of an object member into the field it names
(`decodeState.literalStore`, `array` and `object` on the field).  `null` is
ignored.  A string is stored in a `graph.Node`; for the `uuid.UUID` it is given
to `UnmarshalText`, whose error is returned at once and ends the decoding.  Any
other value is an `UnmarshalTypeError` with the struct and field of the error
context, which is saved while decoding goes on. -/
def decodeField (d : DecodeState) (f : Field) (v : JValue) : Except GoError DecodeState :=
  let typ := match f with
    | .ClientUUID => str "uuid.UUID"
    | _ => str "graph.Node"
  match v with
  | .null _ => .ok d
  | .string s _ =>
    match f with
    | .Ori => .ok { d with v := { d.v with Ori := s } }
    | .Dest => .ok { d with v := { d.v with Dest := s } }
    | .ClientUUID =>
      match ParseBytes s with
      | .error err => .error err
      | .ok id => .ok { d with v := { d.v with ClientUUID := id } }
  | v =>
    match v.mismatch with
    | none => .ok d
    | some (kind, off) =>
      .ok (d.saveError (.unmarshalTypeError kind typ off (str "RequestPayload") f.name))

/-- The loop of `decodeState.object` over the members of the object: the value
of a key that names no field is skipped, and an error that decoding a member
returns ends the loop. -/
def decodeObject (d : DecodeState) : List (GoString × JValue) → Except GoError DecodeState
  | [] => .ok d
  | (key, v) :: rest =>
    match findField key with
    | none => decodeObject d rest
    | some f =>
      match decodeField d f v with
      | .error err => .error err
      | .ok d => decodeObject d rest

/-- Function `decodeState.value` on the struct: an object is decoded member by
member, `null` is ignored, anything else is an `UnmarshalTypeError` that is saved. -/
def decodeValue (d : DecodeState) (v : JValue) : Except GoError DecodeState :=
  match v with
  | .object members _ => decodeObject d members
  | .null _ => .ok d
  | .string _ off =>
    .ok (d.saveError (.unmarshalTypeError (str "string") (str "main.RequestPayload") off [] []))
  | v =>
    match v.mismatch with
    | none => .ok d
    | some (kind, off) =>
      .ok (d.saveError (.unmarshalTypeError kind (str "main.RequestPayload") off [] []))

/-- Function `json.Unmarshal(data, &requestPayload)` for a zero `requestPayload`:
the syntax check of the whole input, then decoding.  The error is the one that
decoding returned (`addErrorContext` leaves an error of `UnmarshalText` as it
is), else the first one saved. -/
def jsonUnmarshal (data : GoString) : Except GoError RequestPayload :=
  match checkValid data with
  | .error err => .error err
  | .ok v =>
    match decodeValue { v := RequestPayload.zero, savedError := none } v with
    | .error err => .error err
    | .ok d =>
      match d.savedError with
      | some err => .error err
      | none => .ok d.v

/-- The error with which field `f` rejects the member value `v`, if it does:
the error that decoding `v` into `f` returns or saves in a decoder that has
saved none. -/
def Field.rejects (f : Field) (v : JValue) : Option GoError :=
  match decodeField { v := RequestPayload.zero, savedError := none } f v with
  | .error err => some err
  | .ok d => d.savedError

/-! ## `encoding/json`: encoding `ResponsePayload` -/

/-- The type `ResponsePayload` of `main.go`; the nil slice and the nil interface are `none`. -/
structure ResponsePayload where
  Path : Option (List Node)
  Error : Option GoError
  deriving DecidableEq

/-- The loop of `encodeState.string` with HTML escaping, as `json.Marshal`
writes a Go string (`\u00XX` for control characters other than `\n`, `\r`,
`\t`).  `skip` counts the continuation bytes of the rune just read; `copy`
tells whether they are output. -/
def encodeStringLoop : GoString → Nat → Bool → GoString
  | [], _, _ => []
  | c :: cs, skip + 1, copy =>
    if copy then c :: encodeStringLoop cs skip copy else encodeStringLoop cs skip copy
  | c :: cs, 0, _ =>
    if c < 0x80 then
      if c = 92 ∨ c = 34 then 92 :: c :: encodeStringLoop cs 0 false
      else if c = 10 then str "\\n" ++ encodeStringLoop cs 0 false
      else if c = 13 then str "\\r" ++ encodeStringLoop cs 0 false
      else if c = 9 then str "\\t" ++ encodeStringLoop cs 0 false
      else if c < 32 ∨ c = 60 ∨ c = 62 ∨ c = 38 then
        str "\\u00" ++ hexFixed 2 c ++ encodeStringLoop cs 0 false
      else c :: encodeStringLoop cs 0 false
    else
      let (r, size) := DecodeRune (c :: cs)
      if r = RuneError ∧ size = 1 then str "\\ufffd" ++ encodeStringLoop cs 0 false
      else if r = 0x2028 ∨ r = 0x2029 then
        str "\\u202" ++ hexDigit (r % 16) :: encodeStringLoop cs (size - 1) false
      else c :: encodeStringLoop cs (size - 1) true

/-- A Go string as a JSON string. -/
def encodeString (s : GoString) : GoString := 34 :: encodeStringLoop s 0 false ++ [34]

/-- The elements of a JSON array, separated by commas. -/
def encodeElems : List Node → GoString
  | [] => []
  | [n] => encodeString n
  | n :: ns => encodeString n ++ 44 :: encodeElems ns

/-- A `[]graph.Node` as JSON: `null` for the nil slice, else an array of strings. -/
def encodePath : Option (List Node) → GoString
  | none => str "null"
  | some nodes => 91 :: encodeElems nodes ++ [93]

/-- The value of an `error` interface as `json.Marshal` writes it: the
exported fields of the dynamic value, never the text of `Error()`. -/
def encodeError : GoError → GoString
  | .errorString _ => str "\x7b\x7d"
  | .invalidUrnError _ => str "\x7b\x7d"
  | .numError fn num err =>
    str "\x7b\"Func\":" ++ encodeString fn ++ str ",\"Num\":" ++ encodeString num ++
      str ",\"Err\":" ++ encodeError err ++ str "\x7d"
  | .syntaxError _ offset => str "\x7b\"Offset\":" ++ formatNat offset ++ str "\x7d"
  | .unmarshalTypeError value _ offset struct_ field =>
    str "\x7b\"Value\":" ++ encodeString value ++ str ",\"Type\":\x7b\x7d,\"Offset\":" ++
      formatNat offset ++ str ",\"Struct\":" ++ encodeString struct_ ++
      str ",\"Field\":" ++ encodeString field ++ str "\x7d"
  | .invalidLengthError _ => str "\x7b\x7d"

/-- The `error` field as JSON: `null` for the nil interface. -/
def encodeErrorField : Option GoError → GoString
  | none => str "null"
  | some err => encodeError err

/-- Function `json.Marshal(v)` for a `ResponsePayload`: both members are always
written (the tags have no `omitempty`); no value of the type fails to encode. -/
def jsonMarshal (v : ResponsePayload) : Except GoError GoString :=
  .ok (str "\x7b\"path\":" ++ encodePath v.Path ++ str ",\"error\":" ++
    encodeErrorField v.Error ++ str "\x7d")

/-! ## Request handling -/

/-- The function `parseError` of `main.go`. -/
def parseError (err : GoError) : Outcome GoString :=
  let errorPayload : ResponsePayload := { Path := none, Error := some err }
  match jsonMarshal errorPayload with
  | .error err => .fatal err
  | .ok errorData => .ret errorData

/-- The statement `return parseError(err), nil`. -/
def returnParseError (err : GoError) : Outcome (GoString × Option UUID) :=
  match parseError err with
  | .ret errorData => .ret (errorData, none)
  | .fatal e => .fatal e
  | .panic msg => .panic msg

/-- The function `handleRequest` of `main.go` on the global graph `g`: what the call ends in, and the
graph state afterwards.  The token is `none` for the nil pointer. -/
def handleRequest {G : Type} (api : GraphAPI G) (g : G) (requestData : GoString) :
    Outcome (GoString × Option UUID) × G :=
  match jsonUnmarshal requestData with
  | .error err => (returnParseError err, g)
  | .ok requestPayload =>
    match api.ShortestPath g requestPayload.Ori requestPayload.Dest with
    | (.error err, g) => (returnParseError err, g)
    | (.ok path, g) =>
      let responsePayload : ResponsePayload := { Path := path, Error := none }
      match jsonMarshal responsePayload with
      | .error err => (returnParseError err, g)
      | .ok responseData => (.ret (responseData, some requestPayload.ClientUUID), g)

/-! ## The consume loop of `main` -/

/-- Type `amqp.Publishing`, the fields that `main` sets. -/
structure Publishing where
  ContentType : GoString
  Body : GoString
  deriving DecidableEq

/-- The arguments of one call of `ch.PublishWithContext`. -/
structure Publish where
  exchange : GoString
  key : GoString
  mandatory : Bool
  immediate : Bool
  msg : Publishing
  deriving DecidableEq

/-- The channel `ch` over an abstract broker state `B`: a call of
`PublishWithContext` gives the error returned and the next state. -/
structure Channel (B : Type) where
  PublishWithContext : B → Publish → Option GoError × B

/-- The method call `clientUUID.String()` through a `*uuid.UUID`: the receiver
is a value, so the pointer is dereferenced, and a nil pointer panics. -/
def callString (clientUUID : Option UUID) : Outcome GoString :=
  match clientUUID with
  | none => .panic (str "runtime error: invalid memory address or nil pointer dereference")
  | some uuid => .ret uuid.String

/-- The body of the loop `for d := range requests` for a delivery with body
`body`: what it ends in (`ret` when the loop goes on), and the graph and
broker states afterwards. -/
def mainLoopBody {G B : Type} (api : GraphAPI G) (ch : Channel B) (g : G) (b : B)
    (body : GoString) : Outcome Unit × G × B :=
  match handleRequest api g body with
  | (.fatal err, g) => (.fatal err, g, b)
  | (.panic msg, g) => (.panic msg, g, b)
  | (.ret (response, clientUUID), g) =>
    -- the arguments are evaluated before the call
    match callString clientUUID with
    | .fatal err => (.fatal err, g, b)
    | .panic msg => (.panic msg, g, b)
    | .ret key =>
      match ch.PublishWithContext b
        { exchange := str "responses", key := key, mandatory := false, immediate := false,
          msg := { ContentType := str "application/json", Body := response } } with
      | (some err, b) => (.fatal err, g, b)
      | (none, b) => (.ret (), g, b)

/-- The loop `for d := range requests` of `main` over the bodies of the
deliveries: it ends with the first iteration that does not return. -/
def mainLoop {G B : Type} (api : GraphAPI G) (ch : Channel B) :
    G → B → List GoString → Outcome Unit × G × B
  | g, b, [] => (.ret (), g, b)
  | g, b, body :: rest =>
    match mainLoopBody api ch g b body with
    | (.ret (), g, b) => mainLoop api ch g b rest
    | out => out

/-! ## Specification side: decimal numerals and edge lines -/

/-- Reading decimal digit bytes left to right onto the value `n`. -/
def decimalFold (n : Nat) (ds : GoString) : Nat :=
  ds.foldl (fun n c => n * 10 + (c - 48)) n

/-- All bytes are decimal digits `'0'..'9'`. -/
def AllDigits (ds : GoString) : Prop := ∀ c ∈ ds, 48 ≤ c ∧ c ≤ 57

/-- The byte string `tok` is a base-10 numeral of the integer `w`: an optional
sign `+` or `-`, then one or more decimal digits. -/
def IsBase10Int (tok : GoString) (w : Int) : Prop :=
  ∃ ds, ds ≠ [] ∧ AllDigits ds ∧
    ((tok = ds ∧ w = (decimalFold 0 ds : Nat)) ∨
     (tok = 43 :: ds ∧ w = (decimalFold 0 ds : Nat)) ∨
     (tok = 45 :: ds ∧ w = -((decimalFold 0 ds : Nat) : Int)))

/-- The integer `w` is a value of Go's `int` (64 bits). -/
def RepresentableInt (w : Int) : Prop := -(2 : Int) ^ 63 ≤ w ∧ w ≤ 2 ^ 63 - 1

/-- The line `<source> <destination> <weight>` of the graph file, the
weight being the decimal rendering of `w`. -/
def edgeLine (source destination : Node) (w : Int) : GoString :=
  source ++ 32 :: (destination ++ 32 :: Itoa w)


/-- The file whose lines are `lines`, each ended by a newline. -/
def fileOfLines : List GoString → GoString
  | [] => []
  | line :: lines => line ++ 10 :: fileOfLines lines

/-- A line that the scanner gives back as it is: it has no newline in it, is
shorter than `MaxScanTokenSize` and does not end in a carriage return. -/
def Scannable (line : GoString) : Prop :=
  10 ∉ line ∧ line.length < MaxScanTokenSize ∧ line.getLast? ≠ some 13

/-- The argument that `ParseInt` gives to `ParseUint` for a token that starts
with byte `c`: the token without a leading sign. -/
def unsignedPart (c : Nat) (cs : GoString) : GoString :=
  if c = 43 then cs else if c = 45 then cs else c :: cs

instance (w : Int) : Decidable (RepresentableInt w) := by
  unfold RepresentableInt
  infer_instance

instance (line : GoString) : Decidable (Scannable line) := by
  unfold Scannable
  infer_instance

/-! ## Instances of the parameters, for the concrete cases -/

/-- A graph package whose state is the list of `AddEdge` calls made, in
order, and whose `ShortestPath` is not used. -/
def traceAPI : GraphAPI (List (Node × Node × Int)) :=
  { NewGraph := []
    AddEdge := fun g u v weight => g ++ [(u, v, weight)]
    ShortestPath := fun g _ _ => (.ok none, g) }

/-- A graph package whose state counts the calls of `ShortestPath`: from node
`A` the path is origin then destination, from any other node the search fails. -/
def exampleAPI : GraphAPI Nat :=
  { NewGraph := 0
    AddEdge := fun g _ _ _ => g
    ShortestPath := fun g ori dest =>
      if ori = str "A" then (.ok (some [ori, dest]), g + 1)
      else (.error (.errorString (str "unknown node")), g + 1) }

/-- A node name of 70000 bytes `a`: longer than `MaxScanTokenSize`, without a
space or a newline. -/
def overlongName : Node := List.replicate 70000 97

/-- A channel whose state is the list of the publish calls made, in order,
and that never fails. -/
def exampleChannel : Channel (List Publish) :=
  { PublishWithContext := fun b p => (none, b ++ [p]) }

/-! ## Lemmas -/

theorem decimalFold_ge (ds : GoString) (n : Nat) : n ≤ decimalFold n ds := by
  induction ds generalizing n with
  | nil => simp [decimalFold]
  | cons c cs ih =>
    have := ih (n * 10 + (c - 48))
    simp only [decimalFold, List.foldl_cons] at this ⊢
    omega

theorem digitValue_digit {c : Nat} (h : 48 ≤ c ∧ c ≤ 57) : digitValue c = some (c - 48) := by
  simp [digitValue, h]

theorem digitValue_lt_ten {c d : Nat} (h : digitValue c = some d) (hd : d < 10) :
    (48 ≤ c ∧ c ≤ 57) ∧ d = c - 48 := by
  unfold digitValue at h
  split at h
  · rename_i hc
    simp at h
    exact ⟨hc, h.symm⟩
  · split at h
    · simp at h; omega
    · simp at h

theorem digitValue_none {c : Nat} (h : digitValue c = none) : ¬ (48 ≤ c ∧ c ≤ 57) := by
  intro hc
  rw [digitValue_digit hc] at h
  cases h

theorem decimalFold_cons (n c : Nat) (cs : GoString) :
    decimalFold n (c :: cs) = decimalFold (n * 10 + (c - 48)) cs := by
  simp [decimalFold]

theorem allDigits_cons {c : Nat} {cs : GoString} :
    AllDigits (c :: cs) ↔ (48 ≤ c ∧ c ≤ 57) ∧ AllDigits cs := by
  simp [AllDigits]

/-- The loop of `ParseUint` with the bound of 64 bits: on digits whose value
fits it returns the value and no error; otherwise a syntax error with value 0 or
a range error with the bound as value. -/
theorem parseUintLoop_cases (s0 cs : GoString) (n : Nat) (hn : n ≤ 2 ^ 64 - 1) :
    (AllDigits cs ∧ decimalFold n cs ≤ 2 ^ 64 - 1 ∧
      parseUintLoop s0 (2 ^ 64 - 1) cs n = (decimalFold n cs, none)) ∨
    (¬ (AllDigits cs ∧ decimalFold n cs ≤ 2 ^ 64 - 1) ∧
      (parseUintLoop s0 (2 ^ 64 - 1) cs n = (0, some (syntaxError (str "ParseUint") s0)) ∨
        parseUintLoop s0 (2 ^ 64 - 1) cs n =
          (2 ^ 64 - 1, some (rangeError (str "ParseUint") s0)))) := by
  induction cs generalizing n with
  | nil =>
    left
    exact ⟨by simp [AllDigits], by simpa [decimalFold] using hn, by simp [parseUintLoop, decimalFold]⟩
  | cons c cs ih =>
    rw [parseUintLoop, decimalFold_cons, allDigits_cons]
    have hge := decimalFold_ge cs (n * 10 + (c - 48))
    cases hdv : digitValue c with
    | none =>
      right
      exact ⟨fun h => digitValue_none hdv h.1.1, Or.inl rfl⟩
    | some d =>
      simp only []
      by_cases hd10 : d ≥ 10
      · right
        rw [if_pos hd10]
        refine ⟨fun h => ?_, Or.inl rfl⟩
        rw [digitValue_digit h.1.1] at hdv
        simp only [Option.some.injEq] at hdv
        omega
      · rw [if_neg hd10]
        obtain ⟨hc, hdc⟩ := digitValue_lt_ten hdv (by omega)
        subst hdc
        by_cases hcut : n ≥ (2 ^ 64 - 1) / 10 + 1
        · right
          rw [if_pos hcut]
          refine ⟨fun h => ?_, Or.inr rfl⟩
          have h2 := h.2
          norm_num at hcut h2
          omega
        · rw [if_neg hcut]
          norm_num at hcut hn
          have e1 : (n * 10) % 2 ^ 64 = n * 10 := by
            apply Nat.mod_eq_of_lt; norm_num; omega
          simp only [e1]
          by_cases hov : (n * 10 + (c - 48)) % 2 ^ 64 < n * 10 ∨
              (n * 10 + (c - 48)) % 2 ^ 64 > 2 ^ 64 - 1
          · right
            rw [if_pos hov]
            refine ⟨fun h => ?_, Or.inr rfl⟩
            have h2 := h.2
            norm_num at h2 hov
            have e2 : (n * 10 + (c - 48)) % 18446744073709551616 = n * 10 + (c - 48) := by
              apply Nat.mod_eq_of_lt; omega
            rw [e2] at hov
            omega
          · rw [if_neg hov]
            norm_num at hov
            have e2 : (n * 10 + (c - 48)) % 18446744073709551616 = n * 10 + (c - 48) := by
              apply Nat.mod_eq_of_lt
              omega
            have e3 : (n * 10 + (c - 48)) % 2 ^ 64 = n * 10 + (c - 48) := by
              apply Nat.mod_eq_of_lt; norm_num; omega
            rw [e2] at hov
            rw [e3]
            rcases ih (n * 10 + (c - 48)) (by norm_num; omega) with ⟨h1, h2, h3⟩ | ⟨h1, h2⟩
            · left
              exact ⟨⟨hc, h1⟩, h2, h3⟩
            · right
              exact ⟨fun h => h1 ⟨h.1.2, h.2⟩, h2⟩

theorem ParseUint_cases (s : GoString) :
    (s ≠ [] ∧ AllDigits s ∧ decimalFold 0 s ≤ 2 ^ 64 - 1 ∧
      ParseUint s 0 = (decimalFold 0 s, none)) ∨
    (¬ (s ≠ [] ∧ AllDigits s ∧ decimalFold 0 s ≤ 2 ^ 64 - 1) ∧
      (ParseUint s 0 = (0, some (syntaxError (str "ParseUint") s)) ∨
        ParseUint s 0 = (2 ^ 64 - 1, some (rangeError (str "ParseUint") s)))) := by
  unfold ParseUint
  by_cases hs : s = []
  · right
    simp [hs]
  · simp only [hs, if_false, IntSize, if_true]
    rcases parseUintLoop_cases s s 0 (by norm_num) with ⟨h1, h2, h3⟩ | ⟨h1, h2⟩
    · left; exact ⟨hs, h1, h2, h3⟩
    · right; exact ⟨fun h => h1 ⟨h.2.1, h.2.2⟩, h2⟩

theorem ParseInt_cons (c : Nat) (cs : GoString) :
    ParseInt (c :: cs) 0 =
      (let checked : Int × Option GoError :=
        if ¬ c = 45 ∧ (ParseUint (unsignedPart c cs) 0).1 ≥ 2 ^ 63 then
          (((2 ^ 63 : Nat) : Int) - 1, some (rangeError (str "ParseInt") (c :: cs)))
        else if c = 45 ∧ (ParseUint (unsignedPart c cs) 0).1 > 2 ^ 63 then
          (-((2 ^ 63 : Nat) : Int), some (rangeError (str "ParseInt") (c :: cs)))
        else (if c = 45 then -((ParseUint (unsignedPart c cs) 0).1 : Int)
          else ((ParseUint (unsignedPart c cs) 0).1 : Int), none)
      match (ParseUint (unsignedPart c cs) 0).2 with
      | some (.numError _ _ e) =>
        if e ≠ ErrRange then (0, some (.numError (str "ParseInt") (c :: cs) e)) else checked
      | _ => checked) := rfl

theorem ParseInt_cases (c : Nat) (cs : GoString) :
    (unsignedPart c cs ≠ [] ∧ AllDigits (unsignedPart c cs) ∧
      ((c ≠ 45 ∧ decimalFold 0 (unsignedPart c cs) < 2 ^ 63) ∨
        (c = 45 ∧ decimalFold 0 (unsignedPart c cs) ≤ 2 ^ 63)) ∧
      ParseInt (c :: cs) 0 =
        (if c = 45 then -((decimalFold 0 (unsignedPart c cs) : Nat) : Int)
          else ((decimalFold 0 (unsignedPart c cs) : Nat) : Int), none)) ∨
    (¬ (unsignedPart c cs ≠ [] ∧ AllDigits (unsignedPart c cs) ∧
        ((c ≠ 45 ∧ decimalFold 0 (unsignedPart c cs) < 2 ^ 63) ∨
          (c = 45 ∧ decimalFold 0 (unsignedPart c cs) ≤ 2 ^ 63))) ∧
      ∃ v e, ParseInt (c :: cs) 0 = (v, some e)) := by
  have hne : ErrSyntax ≠ ErrRange := by decide
  rw [ParseInt_cons]
  rcases ParseUint_cases (unsignedPart c cs) with ⟨h1, h2, h3, h4⟩ | ⟨h1, h4 | h4⟩
  · simp only [h4]
    by_cases hm : c = 45
    · subst hm
      by_cases hv : decimalFold 0 (unsignedPart 45 cs) ≤ 2 ^ 63
      · left
        refine ⟨h1, h2, Or.inr ⟨rfl, hv⟩, ?_⟩
        simp only [not_true_eq_false, false_and, if_false, true_and, if_true]
        rw [if_neg (by omega)]
      · right
        refine ⟨fun h => ?_, ?_⟩
        · rcases h.2.2 with h | h
          · exact h.1 rfl
          · exact hv h.2
        · simp only [not_true_eq_false, false_and, if_false, true_and]
          rw [if_pos (by omega)]
          exact ⟨_, _, rfl⟩
    · by_cases hv : decimalFold 0 (unsignedPart c cs) < 2 ^ 63
      · left
        refine ⟨h1, h2, Or.inl ⟨hm, hv⟩, ?_⟩
        simp only [hm, not_false_eq_true, true_and, false_and, if_false]
        rw [if_neg (by omega)]
      · right
        refine ⟨fun h => ?_, ?_⟩
        · rcases h.2.2 with h | h
          · exact hv h.2
          · exact hm h.1
        · simp only [hm, not_false_eq_true, true_and]
          rw [if_pos (by omega)]
          exact ⟨_, _, rfl⟩
  · right
    refine ⟨fun h => h1 ⟨h.1, h.2.1, ?_⟩, ?_⟩
    · rcases h.2.2 with h | h
      · have := h.2; norm_num at this ⊢; omega
      · have := h.2; norm_num at this ⊢; omega
    · simp only [h4, syntaxError, hne, ne_eq, not_false_eq_true, if_true]
      exact ⟨_, _, rfl⟩
  · right
    refine ⟨fun h => h1 ⟨h.1, h.2.1, ?_⟩, ?_⟩
    · rcases h.2.2 with h | h
      · have := h.2; norm_num at this ⊢; omega
      · have := h.2; norm_num at this ⊢; omega
    · simp only [h4, rangeError, ne_eq, not_true_eq_false, if_false]
      by_cases hm : c = 45
      · subst hm
        simp only [not_true_eq_false, false_and, if_false, true_and]
        rw [if_pos (by norm_num)]
        exact ⟨_, _, rfl⟩
      · simp only [hm, not_false_eq_true, true_and]
        rw [if_pos (by norm_num)]
        exact ⟨_, _, rfl⟩

theorem ParseInt_ok_iff (tok : GoString) (w : Int) :
    ParseInt tok 0 = (w, none) ↔ IsBase10Int tok w ∧ RepresentableInt w := by
  cases tok with
  | nil =>
    simp only [ParseInt, IsBase10Int, RepresentableInt]
    constructor
    · intro h; simp at h
    · rintro ⟨⟨ds, hne, -, h | h | h⟩, -⟩
      · exact absurd h.1.symm hne
      · simp at h
      · simp at h
  | cons c cs =>
    constructor
    · intro h
      rcases ParseInt_cases c cs with ⟨h1, h2, h3, h4⟩ | ⟨-, v, e, h4⟩
      · rw [h4] at h
        simp only [Prod.mk.injEq, and_true] at h
        rcases h3 with ⟨hm, hv⟩ | ⟨hm, hv⟩
        · rw [if_neg hm] at h
          by_cases hp : c = 43
          · have hu : unsignedPart c cs = cs := by simp [unsignedPart, hp]
            rw [hu] at h1 h2 hv h
            refine ⟨⟨cs, h1, h2, Or.inr (Or.inl ⟨by rw [hp], h.symm⟩)⟩, ?_⟩
            unfold RepresentableInt
            omega
          · have hu : unsignedPart c cs = c :: cs := by simp [unsignedPart, hp, hm]
            rw [hu] at h1 h2 hv h
            refine ⟨⟨c :: cs, h1, h2, Or.inl ⟨rfl, h.symm⟩⟩, ?_⟩
            unfold RepresentableInt
            omega
        · rw [if_pos hm] at h
          have hu : unsignedPart c cs = cs := by simp [unsignedPart, hm]
          rw [hu] at h1 h2 hv h
          refine ⟨⟨cs, h1, h2, Or.inr (Or.inr ⟨by rw [hm], h.symm⟩)⟩, ?_⟩
          unfold RepresentableInt
          omega
      · rw [h4] at h
        simp at h
    · rintro ⟨⟨ds, hne, hd, h | h | h⟩, hr⟩
      · obtain ⟨hds, hw⟩ := h
        have hc : 48 ≤ c ∧ c ≤ 57 := hd c (by rw [← hds]; simp)
        have h43 : c ≠ 43 := by omega
        have h45 : c ≠ 45 := by omega
        have hu : unsignedPart c cs = ds := by simp [unsignedPart, h43, h45, hds]
        unfold RepresentableInt at hr
        rcases ParseInt_cases c cs with ⟨h1, h2, h3, h4⟩ | ⟨h1, -⟩
        · rw [h4, if_neg h45, hu, hw]
        · rw [hu] at h1
          exact absurd ⟨hne, hd, Or.inl ⟨h45, by omega⟩⟩ h1
      · obtain ⟨hds, hw⟩ := h
        obtain ⟨rfl, rfl⟩ := List.cons.inj hds
        have hu : unsignedPart 43 cs = cs := by simp [unsignedPart]
        unfold RepresentableInt at hr
        rcases ParseInt_cases 43 cs with ⟨h1, h2, h3, h4⟩ | ⟨h1, -⟩
        · rw [h4, if_neg (by decide), hu, hw]
        · rw [hu] at h1
          exact absurd ⟨hne, hd, Or.inl ⟨by decide, by omega⟩⟩ h1
      · obtain ⟨hds, hw⟩ := h
        obtain ⟨rfl, rfl⟩ := List.cons.inj hds
        have hu : unsignedPart 45 cs = cs := by simp [unsignedPart]
        unfold RepresentableInt at hr
        rcases ParseInt_cases 45 cs with ⟨h1, h2, h3, h4⟩ | ⟨h1, -⟩
        · rw [h4, if_pos rfl, hu, hw]
        · rw [hu] at h1
          exact absurd ⟨hne, hd, Or.inr ⟨rfl, by omega⟩⟩ h1

theorem ParseInt_total (tok : GoString) :
    (∃ w, ParseInt tok 0 = (w, none)) ∨ ∃ v e, ParseInt tok 0 = (v, some e) := by
  rcases h : ParseInt tok 0 with ⟨v, _ | e⟩
  · exact Or.inl ⟨v, rfl⟩
  · exact Or.inr ⟨v, e, rfl⟩

theorem ParseInt_error_iff (tok : GoString) :
    (∃ v e, ParseInt tok 0 = (v, some e)) ↔
      ¬ ∃ w, IsBase10Int tok w ∧ RepresentableInt w := by
  constructor
  · rintro ⟨v, e, he⟩ ⟨w, hw⟩
    rw [(ParseInt_ok_iff tok w).2 hw] at he
    simp at he
  · intro h
    rcases ParseInt_total tok with ⟨w, hw⟩ | h2
    · exact absurd ⟨w, (ParseInt_ok_iff tok w).1 hw⟩ h
    · exact h2

theorem decimalFold_formatBits (fuel u : Nat) (acc : GoString) (h : u ≤ fuel) :
    decimalFold 0 (formatBits fuel u acc) = decimalFold u acc := by
  induction fuel generalizing u acc with
  | zero =>
    have : u = 0 := by omega
    subst this
    simp [formatBits, decimalFold]
  | succ fuel ih =>
    rw [formatBits]
    split
    · rw [ih _ _ (by omega)]
      simp only [decimalFold, List.foldl_cons]
      congr 1
      omega
    · simp [decimalFold]

theorem allDigits_formatBits (fuel u : Nat) (acc : GoString) (h : u ≤ fuel)
    (hacc : AllDigits acc) : AllDigits (formatBits fuel u acc) := by
  induction fuel generalizing u acc with
  | zero =>
    intro c hc
    simp only [formatBits, List.mem_cons] at hc
    rcases hc with rfl | hc
    · omega
    · exact hacc c hc
  | succ fuel ih =>
    rw [formatBits]
    split
    · apply ih _ _ (by omega)
      intro c hc
      rcases List.mem_cons.1 hc with rfl | hc
      · omega
      · exact hacc c hc
    · intro c hc
      rcases List.mem_cons.1 hc with rfl | hc
      · omega
      · exact hacc c hc

theorem formatBits_ne_nil (fuel u : Nat) (acc : GoString) : formatBits fuel u acc ≠ [] := by
  induction fuel generalizing u acc with
  | zero => simp [formatBits]
  | succ fuel ih =>
    rw [formatBits]
    split
    · exact ih _ _
    · simp

theorem isBase10Int_Itoa (w : Int) : IsBase10Int (Itoa w) w := by
  have hd : AllDigits (formatBits w.natAbs w.natAbs []) :=
    allDigits_formatBits _ _ _ (le_refl _) (by simp [AllDigits])
  have hv : decimalFold 0 (formatBits w.natAbs w.natAbs []) = w.natAbs := by
    rw [decimalFold_formatBits _ _ _ (le_refl _)]; simp [decimalFold]
  refine ⟨formatBits w.natAbs w.natAbs [], formatBits_ne_nil _ _ _, hd, ?_⟩
  unfold Itoa
  by_cases hw : w < 0
  · right; right
    simp only [hw, if_true, hv, true_and]
    omega
  · left
    simp only [hw, if_false, hv, true_and]
    omega

theorem space_not_mem_Itoa (w : Int) : 32 ∉ Itoa w := by
  have hd : AllDigits (formatBits w.natAbs w.natAbs []) :=
    allDigits_formatBits _ _ _ (le_refl _) (by simp [AllDigits])
  unfold Itoa
  intro h
  split at h
  · rcases List.mem_cons.1 h with h | h
    · omega
    · have := hd 32 h; omega
  · have := hd 32 h; omega

theorem Split_of_not_mem (a : GoString) (sep : Nat) (h : sep ∉ a) : Split a sep = [a] := by
  induction a with
  | nil => simp [Split]
  | cons c cs ih =>
    have hc : c ≠ sep := fun e => h (by simp [e])
    have hcs : sep ∉ cs := fun e => h (by simp [e])
    rw [Split, if_neg hc, ih hcs]

theorem Split_append_sep (a rest : GoString) (sep : Nat) (h : sep ∉ a) :
    Split (a ++ sep :: rest) sep = a :: Split rest sep := by
  induction a with
  | nil => simp [Split]
  | cons c cs ih =>
    have hc : c ≠ sep := fun e => h (by simp [e])
    have hcs : sep ∉ cs := fun e => h (by simp [e])
    rw [List.cons_append, Split, if_neg hc, ih hcs]

theorem Split_edgeLine (source destination : Node) (w : Int)
    (hs : 32 ∉ source) (hd : 32 ∉ destination) :
    Split (edgeLine source destination w) 32 = [source, destination, Itoa w] := by
  unfold edgeLine
  rw [Split_append_sep _ _ _ hs, Split_append_sep _ _ _ hd,
    Split_of_not_mem _ _ (space_not_mem_Itoa w)]

theorem parceGraphInputLine_edgeLine (source destination : Node) (w : Int)
    (hs : 32 ∉ source) (hd : 32 ∉ destination) (hw : RepresentableInt w) :
    parceGraphInputLine (edgeLine source destination w) = .ok (source, destination, w) := by
  unfold parceGraphInputLine
  simp only [Split_edgeLine source destination w hs hd, List.length_cons, List.length_nil,
    List.getD_cons_succ, List.getD_cons_zero,
    (ParseInt_ok_iff (Itoa w) w).2 ⟨isBase10Int_Itoa w, hw⟩]
  rfl

theorem setupGraphLoop_edgeLines {G : Type} (api : GraphAPI G) (edges : List (Node × Node × Int))
    (h : ∀ e ∈ edges, 32 ∉ e.1 ∧ 32 ∉ e.2.1 ∧ RepresentableInt e.2.2) (g : G) :
    setupGraphLoop api g (edges.map fun e => edgeLine e.1 e.2.1 e.2.2) =
      (edges.foldl (fun g e => api.AddEdge g e.1 e.2.1 e.2.2) g, none) := by
  induction edges generalizing g with
  | nil => simp [setupGraphLoop]
  | cons e es ih =>
    obtain ⟨h1, h2, h3⟩ := h e (by simp)
    simp only [List.map_cons, setupGraphLoop, parceGraphInputLine_edgeLine _ _ _ h1 h2 h3,
      List.foldl_cons]
    exact ih (fun e he => h e (by simp [he])) _

theorem parceGraphInputLine_fails_iff (inputLine : GoString) :
    (∃ err, parceGraphInputLine inputLine = .error err) ↔
      ((Split inputLine 32).length < 3 ∨
        ¬ ∃ w, IsBase10Int ((Split inputLine 32).getD 2 []) w ∧ RepresentableInt w) := by
  unfold parceGraphInputLine
  by_cases hlen : (Split inputLine 32).length < 3
  · simp only [hlen, if_true, true_or, iff_true]
    exact ⟨_, rfl⟩
  · simp only [hlen, if_false, false_or]
    rw [← ParseInt_error_iff]
    rcases hp : ParseInt ((Split inputLine 32).getD 2 []) 0 with ⟨v, _ | e⟩
    · simp
    · simp

theorem setupGraphLoop_append_error {G : Type} (api : GraphAPI G) (pre post : List GoString)
    (bad : GoString) (err : GoError) (g : G)
    (hpre : ∀ l ∈ pre, ∃ r, parceGraphInputLine l = .ok r)
    (hbad : parceGraphInputLine bad = .error err) :
    setupGraphLoop api g (pre ++ bad :: post) = ((setupGraphLoop api g pre).1, some err) := by
  induction pre generalizing g with
  | nil => simp [setupGraphLoop, hbad]
  | cons l ls ih =>
    obtain ⟨⟨u, v, w⟩, hr⟩ := hpre l (by simp)
    simp only [List.cons_append, setupGraphLoop, hr]
    exact ih _ (fun l hl => hpre l (by simp [hl]))


/-! ## The scanner: lemmas -/

theorem scanLoop_line (line rest cur : GoString) (h : 10 ∉ line) :
    scanLoop (line ++ 10 :: rest) cur =
      if cur.length + line.length ≥ MaxScanTokenSize then []
      else dropCR (cur.reverse ++ line) :: scanLoop rest [] := by
  induction line generalizing cur with
  | nil => simp [scanLoop]
  | cons c l ih =>
    have hc : c ≠ 10 := fun e => h (by simp [e])
    have hl : 10 ∉ l := fun e => h (by simp [e])
    rw [List.cons_append, scanLoop, if_neg hc, ih (c :: cur) hl]
    simp only [List.length_cons, List.reverse_cons, List.append_assoc, List.singleton_append]
    have e : cur.length + 1 + l.length = cur.length + (l.length + 1) := by omega
    rw [e]

theorem scanLoop_last (line cur : GoString) (h : 10 ∉ line) :
    scanLoop line cur =
      if cur.reverse ++ line = [] then []
      else if cur.length + line.length ≥ MaxScanTokenSize then []
      else [dropCR (cur.reverse ++ line)] := by
  induction line generalizing cur with
  | nil => simp [scanLoop]
  | cons c l ih =>
    have hc : c ≠ 10 := fun e => h (by simp [e])
    have hl : 10 ∉ l := fun e => h (by simp [e])
    rw [scanLoop, if_neg hc, ih (c :: cur) hl]
    simp only [List.length_cons, List.reverse_cons, List.append_assoc, List.singleton_append]
    have e : cur.length + 1 + l.length = cur.length + (l.length + 1) := by omega
    rw [e]

theorem dropCR_of_scannable (line : GoString) (h : Scannable line) : dropCR line = line := by
  unfold dropCR
  rw [if_neg h.2.2]

/-- A line that the scanner can give is given as it is, and the scan goes on
behind its newline. -/
theorem scanLines_scannable (line rest : GoString) (h : Scannable line) :
    scanLines (line ++ 10 :: rest) = line :: scanLines rest := by
  unfold scanLines
  rw [scanLoop_line line rest [] h.1]
  have h2 := h.2.1
  simp only [List.length_nil, Nat.zero_add, List.reverse_nil, List.nil_append]
  rw [if_neg (by omega), dropCR_of_scannable line h]

/-- At a line of `MaxScanTokenSize` bytes or more the scan stops: neither this
line nor what follows it is given. -/
theorem scanLines_too_long (line rest : GoString) (h : 10 ∉ line)
    (hlen : line.length ≥ MaxScanTokenSize) : scanLines (line ++ 10 :: rest) = [] := by
  unfold scanLines
  rw [scanLoop_line line rest [] h]
  simp only [List.length_nil, Nat.zero_add]
  rw [if_pos hlen]

theorem fileOfLines_append (pre post : List GoString) :
    fileOfLines (pre ++ post) = fileOfLines pre ++ fileOfLines post := by
  induction pre with
  | nil => rfl
  | cons l ls ih => simp [fileOfLines, ih]

theorem scanLines_fileOfLines_append (pre : List GoString) (rest : GoString)
    (h : ∀ l ∈ pre, Scannable l) :
    scanLines (fileOfLines pre ++ rest) = pre ++ scanLines rest := by
  induction pre with
  | nil => rfl
  | cons l ls ih =>
    have hl : Scannable l := h l (by simp)
    have hls : ∀ l ∈ ls, Scannable l := fun x hx => h x (by simp [hx])
    simp only [fileOfLines, List.append_assoc, List.cons_append]
    rw [scanLines_scannable l _ hl, ih hls]

theorem scanLines_fileOfLines (lines : List GoString) (h : ∀ l ∈ lines, Scannable l) :
    scanLines (fileOfLines lines) = lines := by
  have := scanLines_fileOfLines_append lines [] h
  simpa [scanLines, scanLoop] using this

/-- The file without the newline at its end gives the same lines, when the last
line is not empty. -/
theorem scanLines_fileOfLines_dropLast (lines : List GoString)
    (h : ∀ l ∈ lines, Scannable l ∧ l ≠ []) :
    scanLines (fileOfLines lines).dropLast = lines := by
  rcases List.eq_nil_or_concat lines with rfl | ⟨init, last, rfl⟩
  · rfl
  · rw [List.concat_eq_append] at h
    have hlast := h last (by simp)
    have hinit : ∀ l ∈ init, Scannable l := fun l hl => (h l (by simp [hl])).1
    have e : fileOfLines (init ++ [last]) = (fileOfLines init ++ last) ++ [10] := by
      rw [fileOfLines_append]
      simp [fileOfLines]
    rw [List.concat_eq_append, e, List.dropLast_concat,
      scanLines_fileOfLines_append init last hinit]
    congr 1
    unfold scanLines
    rw [scanLoop_last last [] hlast.1.1]
    have h2 := hlast.1.2.1
    simp only [List.reverse_nil, List.nil_append, List.length_nil, Nat.zero_add]
    rw [if_neg hlast.2, if_neg (by omega), dropCR_of_scannable last hlast.1]

theorem not_mem_Itoa (c : Nat) (w : Int) (h45 : c ≠ 45) (hd : ¬ (48 ≤ c ∧ c ≤ 57)) :
    c ∉ Itoa w := by
  have hall : AllDigits (formatBits w.natAbs w.natAbs []) :=
    allDigits_formatBits _ _ _ (le_refl _) (by simp [AllDigits])
  unfold Itoa
  intro h
  split at h
  · rcases List.mem_cons.1 h with h | h
    · exact h45 h
    · exact hd (hall c h)
  · exact hd (hall c h)

theorem Itoa_ne_nil (w : Int) : Itoa w ≠ [] := by
  unfold Itoa
  split
  · simp
  · exact formatBits_ne_nil _ _ _

/-- An edge line without a newline in its source and destination and shorter
than `MaxScanTokenSize` is given by the scanner as it is. -/
theorem scannable_edgeLine (source destination : Node) (w : Int)
    (hs : 10 ∉ source) (hd : 10 ∉ destination)
    (hlen : (edgeLine source destination w).length < MaxScanTokenSize) :
    Scannable (edgeLine source destination w) ∧ edgeLine source destination w ≠ [] := by
  have hi : 10 ∉ Itoa w := not_mem_Itoa 10 w (by decide) (by decide)
  refine ⟨⟨?_, hlen, ?_⟩, ?_⟩
  · simp only [edgeLine, List.mem_append, List.mem_cons]
    rintro (h | h | h | h | h)
    · exact hs h
    · exact absurd h (by decide)
    · exact hd h
    · exact absurd h (by decide)
    · exact hi h
  · intro h
    have hne := Itoa_ne_nil w
    have e : edgeLine source destination w = (source ++ 32 :: (destination ++ [32])) ++ Itoa w := by
      simp [edgeLine]
    rw [e, List.getLast?_append_of_ne_nil _ hne] at h
    exact not_mem_Itoa 13 w (by decide) (by decide) (List.mem_of_getLast?_eq_some h)
  · simp [edgeLine]

theorem newline_not_mem_edgeLine (source destination : Node) (w : Int)
    (hs : 10 ∉ source) (hd : 10 ∉ destination) : 10 ∉ edgeLine source destination w := by
  have hi : 10 ∉ Itoa w := not_mem_Itoa 10 w (by decide) (by decide)
  simp only [edgeLine, List.mem_append, List.mem_cons]
  rintro (h | h | h | h | h)
  · exact hs h
  · exact absurd h (by decide)
  · exact hd h
  · exact absurd h (by decide)
  · exact hi h

theorem parceGraphInputLine_one_token (inputLine : GoString) (h : 32 ∉ inputLine) :
    parceGraphInputLine inputLine = .error (.errorString (str "invalid input")) := by
  unfold parceGraphInputLine
  simp [Split_of_not_mem inputLine 32 h]

theorem setupGraphLoop_append {G : Type} (api : GraphAPI G) (pre post : List GoString) (g : G)
    (hpre : ∀ l ∈ pre, ∃ r, parceGraphInputLine l = .ok r) :
    setupGraphLoop api g (pre ++ post) =
      setupGraphLoop api (setupGraphLoop api g pre).1 post := by
  induction pre generalizing g with
  | nil => simp [setupGraphLoop]
  | cons l ls ih =>
    obtain ⟨⟨u, v, w⟩, hr⟩ := hpre l (by simp)
    simp only [List.cons_append, setupGraphLoop, hr]
    exact ih _ (fun l hl => hpre l (by simp [hl]))


theorem setupGraphLoop_of_ok {G : Type} (api : GraphAPI G) (pre : List GoString) (g : G)
    (hpre : ∀ l ∈ pre, ∃ r, parceGraphInputLine l = .ok r) :
    setupGraphLoop api g pre = ((setupGraphLoop api g pre).1, none) := by
  have h := setupGraphLoop_append api pre [] g hpre
  rw [List.append_nil] at h
  rw [h]
  rfl

theorem length_overlongName : overlongName.length = 70000 := by
  unfold overlongName
  rw [List.length_replicate]

theorem not_mem_overlongName (c : Nat) (h : c ≠ 97) : c ∉ overlongName := by
  unfold overlongName
  intro hc
  exact h (List.eq_of_mem_replicate hc)

/-- The scan of a file of scannable lines followed by an over-long line gives
the lines before the over-long one and nothing more. -/
theorem scanLines_fileOfLines_too_long (pre : List GoString) (long rest : GoString)
    (hpre : ∀ l ∈ pre, Scannable l) (h : 10 ∉ long) (hlen : long.length ≥ MaxScanTokenSize) :
    scanLines (fileOfLines pre ++ (long ++ 10 :: rest)) = pre := by
  rw [scanLines_fileOfLines_append pre _ hpre, scanLines_too_long long rest h hlen,
    List.append_nil]

theorem length_le_length_edgeLine (source destination : Node) (w : Int) :
    source.length ≤ (edgeLine source destination w).length := by
  unfold edgeLine
  rw [List.length_append]
  exact Nat.le_add_right _ _

/-- An edge line whose source is `overlongName` has `MaxScanTokenSize` bytes or
more. -/
theorem overlong_edgeLine (destination : Node) (w : Int) :
    (edgeLine overlongName destination w).length ≥ MaxScanTokenSize := by
  have h : MaxScanTokenSize ≤ overlongName.length := by
    rw [length_overlongName]
    decide
  exact Nat.le_trans h (length_le_length_edgeLine overlongName destination w)
/-! ## Request handling: the claims -/

theorem parseError_eq (err : GoError) :
    parseError err =
      .ret (str "\x7b\"path\":null,\"error\":" ++ encodeError err ++ str "\x7d") := rfl

theorem returnParseError_eq (err : GoError) :
    returnParseError err =
      .ret (str "\x7b\"path\":null,\"error\":" ++ encodeError err ++ str "\x7d", none) := rfl

/-- C1, as the code behaves: when the request body decodes and `ShortestPath`
fails with `err`, `handleRequest` returns the error envelope for `err` with the
nil token; the decoded `client_uuid` is dropped, contrary to the claim. -/
theorem handleRequest_path_error {G : Type} (api : GraphAPI G) (g g' : G)
    (requestData : GoString) (requestPayload : RequestPayload) (err : GoError)
    (hdec : jsonUnmarshal requestData = .ok requestPayload)
    (hsp : api.ShortestPath g requestPayload.Ori requestPayload.Dest = (.error err, g')) :
    parseError err =
        .ret (str "\x7b\"path\":null,\"error\":" ++ encodeError err ++ str "\x7d") ∧
      handleRequest api g requestData =
        (.ret (str "\x7b\"path\":null,\"error\":" ++ encodeError err ++ str "\x7d", none), g') := by
  refine ⟨rfl, ?_⟩
  unfold handleRequest
  simp only [hdec, hsp, returnParseError_eq]

/-- C1 at a concrete request: the body decodes with a valid `client_uuid`, the
path finder fails, and the token returned is nil. -/
theorem handleRequest_path_error_witness :
    parseError (.errorString (str "unknown node")) =
        .ret (str "\x7b\"path\":null,\"error\":\x7b\x7d\x7d") ∧
      handleRequest exampleAPI 0
          (str "\x7b\"ori\":\"Z\",\"dest\":\"C\",\"client_uuid\":\"123e4567-e89b-12d3-a456-426614174000\"\x7d") =
        (.ret (str "\x7b\"path\":null,\"error\":\x7b\x7d\x7d", none), 1) :=
  handleRequest_path_error exampleAPI 0 1
    (str "\x7b\"ori\":\"Z\",\"dest\":\"C\",\"client_uuid\":\"123e4567-e89b-12d3-a456-426614174000\"\x7d")
    { Ori := str "Z", Dest := str "C",
      ClientUUID := [0x12, 0x3e, 0x45, 0x67, 0xe8, 0x9b, 0x12, 0xd3, 0xa4, 0x56, 0x42, 0x66,
        0x14, 0x17, 0x40, 0x00] }
    (.errorString (str "unknown node")) (by rfl) (by rfl)

/-- C2: when decoding the request body fails with `err`, `handleRequest`
returns the error envelope for `err` with the nil token; the graph state is
untouched and the result is the same whatever `ShortestPath` is, so the path
finder is not invoked. -/
theorem handleRequest_decode_error {G : Type} (api : GraphAPI G) (g : G)
    (requestData : GoString) (err : GoError)
    (hdec : jsonUnmarshal requestData = .error err) :
    parseError err =
        .ret (str "\x7b\"path\":null,\"error\":" ++ encodeError err ++ str "\x7d") ∧
      handleRequest api g requestData =
        (.ret (str "\x7b\"path\":null,\"error\":" ++ encodeError err ++ str "\x7d", none), g) ∧
      ∀ sp, handleRequest { api with ShortestPath := sp } g requestData =
        handleRequest api g requestData := by
  refine ⟨rfl, ?_, ?_⟩
  · unfold handleRequest
    simp only [hdec, returnParseError_eq]
  · intro sp
    unfold handleRequest
    simp only [hdec]

/-- C2 at two concrete requests.  A body that is not JSON gives the envelope
of the syntax error, no token, and no call of the counting path finder; so does
a body whose `client_uuid` is no UUID, with the envelope of the error of
`UnmarshalText`. -/
theorem handleRequest_decode_error_witness :
    (handleRequest exampleAPI 0 (str "not json") =
        (.ret (str "\x7b\"path\":null,\"error\":\x7b\"Offset\":2\x7d\x7d", none), 0)) ∧
      (handleRequest exampleAPI 0
          (str "\x7b\"ori\":\"A\",\"dest\":\"C\",\"client_uuid\":\"123e4567\"\x7d") =
        (.ret (str "\x7b\"path\":null,\"error\":\x7b\x7d\x7d", none), 0)) :=
  ⟨(handleRequest_decode_error exampleAPI 0 (str "not json")
      (.syntaxError (str "invalid character 'o' in literal null (expecting 'u')") 2)
      (by rfl)).2.1,
    (handleRequest_decode_error exampleAPI 0
      (str "\x7b\"ori\":\"A\",\"dest\":\"C\",\"client_uuid\":\"123e4567\"\x7d")
      (.invalidLengthError 8) (by rfl)).2.1⟩

theorem encodeElems_eq (nodes : List Node) :
    encodeElems nodes = (str ",").intercalate (nodes.map encodeString) := by
  induction nodes with
  | nil => rfl
  | cons n ns ih =>
    cases ns with
    | nil => simp [encodeElems, List.intercalate]
    | cons m ms =>
      rw [encodeElems, ih]
      · simp [List.intercalate, str, encodeRune]
      · simp

/-- C3: when the request body decodes and `ShortestPath` succeeds with `path`,
`handleRequest` returns the serialization of the envelope whose path is `path`
and whose error is nil, with the decoded `client_uuid` as token; a path that is
not nil is written as the JSON array of its nodes, each as a JSON string, in
the order of the path. -/
theorem handleRequest_path_ok {G : Type} (api : GraphAPI G) (g g' : G)
    (requestData : GoString) (requestPayload : RequestPayload) (path : Option (List Node))
    (hdec : jsonUnmarshal requestData = .ok requestPayload)
    (hsp : api.ShortestPath g requestPayload.Ori requestPayload.Dest = (.ok path, g')) :
    jsonMarshal { Path := path, Error := none } =
        .ok (str "\x7b\"path\":" ++ encodePath path ++ str ",\"error\":null\x7d") ∧
      handleRequest api g requestData =
        (.ret (str "\x7b\"path\":" ++ encodePath path ++ str ",\"error\":null\x7d",
          some requestPayload.ClientUUID), g') ∧
      ∀ nodes, path = some nodes →
        encodePath path =
          str "[" ++ (str ",").intercalate (nodes.map encodeString) ++ str "]" := by
  have hm : jsonMarshal { Path := path, Error := none } =
      .ok (str "\x7b\"path\":" ++ encodePath path ++ str ",\"error\":null\x7d") := by
    simp [jsonMarshal, encodeErrorField, str, encodeRune]
  refine ⟨hm, ?_, ?_⟩
  · unfold handleRequest
    simp only [hdec, hsp, hm]
  · intro nodes hn
    subst hn
    rw [← encodeElems_eq]
    rfl

/-- C3 at a concrete request: the path found is serialized in order and the
token is the `client_uuid` of the request. -/
theorem handleRequest_path_ok_witness :
    jsonMarshal { Path := some [str "A", str "C"], Error := none } =
        .ok (str "\x7b\"path\":[\"A\",\"C\"],\"error\":null\x7d") ∧
      handleRequest exampleAPI 0
          (str "\x7b\"ori\":\"A\",\"dest\":\"C\",\"client_uuid\":\"123e4567-e89b-12d3-a456-426614174000\"\x7d") =
        (.ret (str "\x7b\"path\":[\"A\",\"C\"],\"error\":null\x7d",
          some [0x12, 0x3e, 0x45, 0x67, 0xe8, 0x9b, 0x12, 0xd3, 0xa4, 0x56, 0x42, 0x66,
            0x14, 0x17, 0x40, 0x00]), 1) :=
  have h := handleRequest_path_ok exampleAPI 0 1
    (str "\x7b\"ori\":\"A\",\"dest\":\"C\",\"client_uuid\":\"123e4567-e89b-12d3-a456-426614174000\"\x7d")
    { Ori := str "A", Dest := str "C",
      ClientUUID := [0x12, 0x3e, 0x45, 0x67, 0xe8, 0x9b, 0x12, 0xd3, 0xa4, 0x56, 0x42, 0x66,
        0x14, 0x17, 0x40, 0x00] }
    (some [str "A", str "C"]) (by rfl) (by rfl)
  ⟨h.1, h.2.1⟩

/-- C4, as the code behaves: when `handleRequest` returns no token, the loop
body publishes nothing, but evaluating the routing key dereferences the nil
token and panics, so the consume loop ends there and handles no later message. -/
theorem mainLoop_nil_token {G B : Type} (api : GraphAPI G) (ch : Channel B) (g g' : G) (b : B)
    (body response : GoString)
    (h : handleRequest api g body = (.ret (response, none), g')) :
    mainLoopBody api ch g b body =
        (.panic (str "runtime error: invalid memory address or nil pointer dereference"),
          g', b) ∧
      ∀ rest, mainLoop api ch g b (body :: rest) =
        (.panic (str "runtime error: invalid memory address or nil pointer dereference"),
          g', b) := by
  have hc : mainLoopBody api ch g b body =
      (.panic (str "runtime error: invalid memory address or nil pointer dereference"),
        g', b) := by
    unfold mainLoopBody
    simp only [h, callString]
  refine ⟨hc, ?_⟩
  intro rest
  simp only [mainLoop, hc]

/-- C4 at concrete deliveries: a body that is not JSON, then a valid request;
the loop panics on the first and nothing is ever published. -/
theorem mainLoop_nil_token_witness :
    mainLoopBody exampleAPI exampleChannel 0 [] (str "not json") =
        (.panic (str "runtime error: invalid memory address or nil pointer dereference"),
          0, []) ∧
      mainLoop exampleAPI exampleChannel 0 []
          [str "not json",
            str "\x7b\"ori\":\"A\",\"dest\":\"C\",\"client_uuid\":\"123e4567-e89b-12d3-a456-426614174000\"\x7d"] =
        (.panic (str "runtime error: invalid memory address or nil pointer dereference"),
          0, []) :=
  have h := mainLoop_nil_token exampleAPI exampleChannel 0 0 [] (str "not json")
    (str "\x7b\"path\":null,\"error\":\x7b\"Offset\":2\x7d\x7d") (by rfl)
  ⟨h.1, h.2 _⟩

/-! ## Decoding an object: the claims -/

theorem decodeField_error (d : DecodeState) (f : Field) (v : JValue) (err : GoError)
    (h : decodeField d f v = .error err) : f.rejects v = some err := by
  cases v <;> cases f <;>
    simp [decodeField, Field.rejects, JValue.mismatch] at h ⊢
  split at h
  · rename_i e he
    simp only [Except.error.injEq] at h
    subst h
    simp [he]
  · cases h

theorem decodeField_ok (d d' : DecodeState) (f : Field) (v : JValue)
    (h : decodeField d f v = .ok d') :
    d'.savedError =
      match d.savedError with
      | some e => some e
      | none => f.rejects v := by
  cases hd : d.savedError with
  | some e =>
    cases v <;> cases f <;>
      simp [decodeField, DecodeState.saveError, JValue.mismatch, hd] at h ⊢ <;>
      first
        | (subst h; simp [hd])
        | (split at h <;> first
            | (simp only [Except.ok.injEq] at h; subst h; simp [hd])
            | cases h)
  | none =>
    cases v <;> cases f <;>
      simp [decodeField, Field.rejects, DecodeState.saveError, JValue.mismatch, hd] at h ⊢ <;>
      first
        | (subst h; simp [hd])
        | (split at h <;> first
            | (rename_i id hid; simp only [Except.ok.injEq] at h; subst h; simp [hd, hid])
            | cases h)

theorem decodeObject_error (d : DecodeState) (members : List (GoString × JValue))
    (err : GoError) (h : decodeObject d members = .error err) :
    ∃ key v f, (key, v) ∈ members ∧ findField key = some f ∧ f.rejects v = some err := by
  induction members generalizing d with
  | nil => simp [decodeObject] at h
  | cons kv rest ih =>
    obtain ⟨key, v⟩ := kv
    unfold decodeObject at h
    cases hf : findField key with
    | none =>
      simp only [hf] at h
      obtain ⟨k, v', f, hm, hk, hr⟩ := ih d h
      exact ⟨k, v', f, List.mem_cons_of_mem _ hm, hk, hr⟩
    | some f =>
      simp only [hf] at h
      cases hd : decodeField d f v with
      | error e =>
        rw [hd] at h
        simp only [Except.error.injEq] at h
        subst h
        exact ⟨key, v, f, List.mem_cons_self _ _, hf, decodeField_error d f v e hd⟩
      | ok d1 =>
        rw [hd] at h
        obtain ⟨k, v', f', hm, hk, hr⟩ := ih d1 h
        exact ⟨k, v', f', List.mem_cons_of_mem _ hm, hk, hr⟩

theorem decodeObject_savedError (d d' : DecodeState) (members : List (GoString × JValue))
    (err : GoError) (hok : decodeObject d members = .ok d') (h : d'.savedError = some err) :
    d.savedError = some err ∨
      ∃ key v f, (key, v) ∈ members ∧ findField key = some f ∧ f.rejects v = some err := by
  induction members generalizing d with
  | nil =>
    simp only [decodeObject, Except.ok.injEq] at hok
    subst hok
    exact Or.inl h
  | cons kv rest ih =>
    obtain ⟨key, v⟩ := kv
    unfold decodeObject at hok
    cases hf : findField key with
    | none =>
      simp only [hf] at hok
      rcases ih d hok with h1 | ⟨k, v', f, hm, hk, hr⟩
      · exact Or.inl h1
      · exact Or.inr ⟨k, v', f, List.mem_cons_of_mem _ hm, hk, hr⟩
    | some f =>
      simp only [hf] at hok
      cases hd : decodeField d f v with
      | error e => rw [hd] at hok; cases hok
      | ok d1 =>
        rw [hd] at hok
        rcases ih d1 hok with h1 | ⟨k, v', f', hm, hk, hr⟩
        · rw [decodeField_ok d d1 f v hd] at h1
          cases hs : d.savedError with
          | some e => rw [hs] at h1; exact Or.inl h1
          | none =>
            rw [hs] at h1
            exact Or.inr ⟨key, v, f, List.mem_cons_self _ _, hf, h1⟩
        · exact Or.inr ⟨k, v', f', List.mem_cons_of_mem _ hm, hk, hr⟩

theorem decodeField_Ori (d d' : DecodeState) (f : Field) (v : JValue) (hf : f ≠ .Ori)
    (h : decodeField d f v = .ok d') : d'.v.Ori = d.v.Ori := by
  cases v <;> cases f <;>
    simp [decodeField, DecodeState.saveError, JValue.mismatch] at hf h ⊢ <;>
    first
      | (subst h; rfl)
      | (subst h; split <;> rfl)
      | (split at h <;> first | (simp only [Except.ok.injEq] at h; subst h; rfl) | cases h)

theorem decodeField_Dest (d d' : DecodeState) (f : Field) (v : JValue) (hf : f ≠ .Dest)
    (h : decodeField d f v = .ok d') : d'.v.Dest = d.v.Dest := by
  cases v <;> cases f <;>
    simp [decodeField, DecodeState.saveError, JValue.mismatch] at hf h ⊢ <;>
    first
      | (subst h; rfl)
      | (subst h; split <;> rfl)
      | (split at h <;> first | (simp only [Except.ok.injEq] at h; subst h; rfl) | cases h)

theorem decodeField_ClientUUID (d d' : DecodeState) (f : Field) (v : JValue)
    (hf : f ≠ .ClientUUID) (h : decodeField d f v = .ok d') :
    d'.v.ClientUUID = d.v.ClientUUID := by
  cases v <;> cases f <;>
    simp [decodeField, DecodeState.saveError, JValue.mismatch] at hf h ⊢ <;>
    first
      | (subst h; rfl)
      | (subst h; split <;> rfl)

theorem decodeObject_absent {α : Type} (proj : RequestPayload → α) (f : Field)
    (hproj : ∀ d d' f' v, f' ≠ f → decodeField d f' v = .ok d' → proj d'.v = proj d.v)
    (d d' : DecodeState) (members : List (GoString × JValue))
    (h : ∀ kv ∈ members, findField kv.1 ≠ some f) (hok : decodeObject d members = .ok d') :
    proj d'.v = proj d.v := by
  induction members generalizing d with
  | nil =>
    simp only [decodeObject, Except.ok.injEq] at hok
    subst hok
    rfl
  | cons kv rest ih =>
    obtain ⟨key, v⟩ := kv
    have hrest : ∀ kv ∈ rest, findField kv.1 ≠ some f :=
      fun kv hkv => h kv (List.mem_cons_of_mem _ hkv)
    have hkey : findField key ≠ some f := h (key, v) (List.mem_cons_self _ _)
    unfold decodeObject at hok
    cases hf : findField key with
    | none =>
      simp only [hf] at hok
      exact ih d hrest hok
    | some f' =>
      simp only [hf] at hok
      cases hd : decodeField d f' v with
      | error e => rw [hd] at hok; cases hok
      | ok d1 =>
        rw [hd] at hok
        rw [ih d1 hrest hok]
        exact hproj d d1 f' v (fun e => hkey (by rw [hf, e])) hd

/-- C5, refuted at a concrete envelope: a well-formed JSON object without
`dest` is not rejected by the decode step; it decodes with an empty `Dest`. -/
theorem jsonUnmarshal_missing_dest_ok :
    jsonUnmarshal
        (str "\x7b\"ori\":\"A\",\"client_uuid\":\"123e4567-e89b-12d3-a456-426614174000\"\x7d") =
      .ok { Ori := str "A", Dest := [],
            ClientUUID := [0x12, 0x3e, 0x45, 0x67, 0xe8, 0x9b, 0x12, 0xd3, 0xa4, 0x56, 0x42,
              0x66, 0x14, 0x17, 0x40, 0x00] } ∧
      ¬ ∃ err, jsonUnmarshal
        (str "\x7b\"ori\":\"A\",\"client_uuid\":\"123e4567-e89b-12d3-a456-426614174000\"\x7d") =
          .error err := by
  have h : jsonUnmarshal
      (str "\x7b\"ori\":\"A\",\"client_uuid\":\"123e4567-e89b-12d3-a456-426614174000\"\x7d") =
      .ok { Ori := str "A", Dest := [],
            ClientUUID := [0x12, 0x3e, 0x45, 0x67, 0xe8, 0x9b, 0x12, 0xd3, 0xa4, 0x56, 0x42,
              0x66, 0x14, 0x17, 0x40, 0x00] } := by rfl
  refine ⟨h, ?_⟩
  rintro ⟨err, he⟩
  rw [h] at he
  cases he

/-- C5, amended: for a request body that is a well-formed JSON object, the
decode step fails only with the error of a member that is present and whose
value its field rejects, never because a field is omitted: it succeeds when no
member present is rejected; and when decoding succeeds, every field that no
member names has its zero value (the empty node, the nil UUID), and
`handleRequest` calls the path finder with the decoded origin and destination. -/
theorem jsonUnmarshal_object (data : GoString) (members : List (GoString × JValue)) (off : Nat)
    (hobj : checkValid data = .ok (.object members off)) :
    (∀ err, jsonUnmarshal data = .error err →
      ∃ key v f, (key, v) ∈ members ∧ findField key = some f ∧ f.rejects v = some err) ∧
    ((∀ key v f, (key, v) ∈ members → findField key = some f → f.rejects v = none) →
      ∃ requestPayload, jsonUnmarshal data = .ok requestPayload) ∧
    (∀ requestPayload, jsonUnmarshal data = .ok requestPayload →
      ((∀ kv ∈ members, findField kv.1 ≠ some .Ori) → requestPayload.Ori = []) ∧
      ((∀ kv ∈ members, findField kv.1 ≠ some .Dest) → requestPayload.Dest = []) ∧
      ((∀ kv ∈ members, findField kv.1 ≠ some .ClientUUID) →
        requestPayload.ClientUUID = UUID.Nil) ∧
      ∀ {G : Type} (api : GraphAPI G) (g : G),
        (handleRequest api g data).2 =
          (api.ShortestPath g requestPayload.Ori requestPayload.Dest).2) := by
  have hu : jsonUnmarshal data =
      match decodeObject { v := RequestPayload.zero, savedError := none } members with
      | .error err => .error err
      | .ok d =>
        match d.savedError with
        | some err => .error err
        | none => .ok d.v := by
    simp only [jsonUnmarshal, hobj, decodeValue]
  have h1 : ∀ err, jsonUnmarshal data = .error err →
      ∃ key v f, (key, v) ∈ members ∧ findField key = some f ∧ f.rejects v = some err := by
    intro err he
    rw [hu] at he
    cases hdec : decodeObject { v := RequestPayload.zero, savedError := none } members with
    | error e =>
      rw [hdec] at he
      simp only [Except.error.injEq] at he
      subst he
      exact decodeObject_error _ _ _ hdec
    | ok d =>
      rw [hdec] at he
      dsimp only at he
      cases hs : d.savedError with
      | none => rw [hs] at he; cases he
      | some e =>
        rw [hs] at he
        simp only [Except.error.injEq] at he
        subst he
        rcases decodeObject_savedError _ _ _ _ hdec hs with h1 | h1
        · cases h1
        · exact h1
  refine ⟨h1, ?_, ?_⟩
  · intro hall
    cases hj : jsonUnmarshal data with
    | ok p => exact ⟨p, rfl⟩
    | error err =>
      obtain ⟨key, v, f, hm, hf, hr⟩ := h1 err hj
      rw [hall key v f hm hf] at hr
      cases hr
  · intro p hp
    have hcall : ∀ {G : Type} (api : GraphAPI G) (g : G),
        (handleRequest api g data).2 = (api.ShortestPath g p.Ori p.Dest).2 := by
      intro G api g
      unfold handleRequest
      simp only [hp]
      rcases api.ShortestPath g p.Ori p.Dest with ⟨_ | _, g'⟩ <;> rfl
    rw [hu] at hp
    cases hdec : decodeObject { v := RequestPayload.zero, savedError := none } members with
    | error e => rw [hdec] at hp; cases hp
    | ok d =>
      rw [hdec] at hp
      dsimp only at hp
      cases hs : d.savedError with
      | some e => rw [hs] at hp; cases hp
      | none =>
        rw [hs] at hp
        simp only [Except.ok.injEq] at hp
        subst hp
        refine ⟨fun h => ?_, fun h => ?_, fun h => ?_, hcall⟩
        · exact decodeObject_absent (fun p => p.Ori) .Ori
            (fun d d' f v hf hd => decodeField_Ori d d' f v hf hd) _ _ _ h hdec
        · exact decodeObject_absent (fun p => p.Dest) .Dest
            (fun d d' f v hf hd => decodeField_Dest d d' f v hf hd) _ _ _ h hdec
        · exact decodeObject_absent (fun p => p.ClientUUID) .ClientUUID
            (fun d d' f v hf hd => decodeField_ClientUUID d d' f v hf hd) _ _ _ h hdec

/-- C5 amended, at a concrete envelope without `dest`: it scans as an object
of two members, and the payload it decodes to has the empty `Dest`. -/
theorem jsonUnmarshal_object_witness :
    checkValid
        (str "\x7b\"ori\":\"A\",\"client_uuid\":\"123e4567-e89b-12d3-a456-426614174000\"\x7d") =
      .ok (.object [(str "ori", .string (str "A") 10),
        (str "client_uuid", .string (str "123e4567-e89b-12d3-a456-426614174000") 63)] 1) ∧
    (RequestPayload.mk (str "A") []
      [0x12, 0x3e, 0x45, 0x67, 0xe8, 0x9b, 0x12, 0xd3, 0xa4, 0x56, 0x42, 0x66, 0x14, 0x17,
        0x40, 0x00]).Dest = [] :=
  ⟨rfl,
    ((jsonUnmarshal_object
      (str "\x7b\"ori\":\"A\",\"client_uuid\":\"123e4567-e89b-12d3-a456-426614174000\"\x7d")
      [(str "ori", .string (str "A") 10),
        (str "client_uuid", .string (str "123e4567-e89b-12d3-a456-426614174000") 63)] 1 rfl).2.2
      (RequestPayload.mk (str "A") []
        [0x12, 0x3e, 0x45, 0x67, 0xe8, 0x9b, 0x12, 0xd3, 0xa4, 0x56, 0x42, 0x66, 0x14, 0x17,
          0x40, 0x00]) rfl).2.1 (by decide)⟩

/-! ## The error envelope: the claims -/

theorem encodeError_head (err : GoError) : ∃ rest, encodeError err = 123 :: rest := by
  cases err <;> exact ⟨_, rfl⟩

/-- C6, as the code behaves: for every error `err`, the `error` member of the
envelope that `parseError` returns is a JSON object (it starts with an opening
brace), not the description as a JSON string.  For an error made by
`errors.New` or `fmt.Errorf`, whose description is its text, the envelope is
the same whatever the text, with the empty object as `error` member.  And the
request bodies `x` and `y` fail to decode with syntax errors of different
descriptions and the same envelope. -/
theorem parseError_errorString (table : Nat → Bool) (err : GoError) (s₁ s₂ : GoString) :
    (∃ rest, parseError err = .ret (str "\x7b\"path\":null,\"error\":\x7b" ++ rest)) ∧
      (GoError.errorString s₁).Error table = s₁ ∧
      parseError (.errorString s₁) = .ret (str "\x7b\"path\":null,\"error\":\x7b\x7d\x7d") ∧
      parseError (.errorString s₁) = parseError (.errorString s₂) ∧
      jsonUnmarshal (str "x") =
        .error (.syntaxError (str "invalid character 'x' looking for beginning of value") 1) ∧
      jsonUnmarshal (str "y") =
        .error (.syntaxError (str "invalid character 'y' looking for beginning of value") 1) ∧
      (GoError.syntaxError (str "invalid character 'x' looking for beginning of value")
          1).Error table ≠
        (GoError.syntaxError (str "invalid character 'y' looking for beginning of value")
          1).Error table ∧
      parseError (.syntaxError (str "invalid character 'x' looking for beginning of value") 1) =
        parseError (.syntaxError (str "invalid character 'y' looking for beginning of value") 1) := by
  have hne : str "invalid character 'x' looking for beginning of value" ≠
      str "invalid character 'y' looking for beginning of value" := by decide
  refine ⟨?_, rfl, rfl, rfl, rfl, rfl, hne, rfl⟩
  obtain ⟨rest, hr⟩ := encodeError_head err
  refine ⟨rest ++ str "\x7d", ?_⟩
  rw [parseError_eq, hr]
  rfl

/-- C8: `parceGraphInputLine` returns an error exactly when splitting the line
on single spaces gives fewer than three tokens or the third token is not a
base-10 integer representable as an `int`.  When such a line, which the
scanner can give, follows lines that the scanner can give and that all parse,
`setupGraph` returns the error of that line, with the graph as the lines
before it left it, and `init` ends the process with it.  When a line of
`MaxScanTokenSize` bytes or more follows such lines, the scanner stops there
with an error that `setupGraph` does not read: `setupGraph` returns no error,
whatever that line and the lines behind it hold, with the graph as the lines
before it left it, and `init` returns. -/
theorem parceGraphInputLine_error_iff (inputLine : GoString) :
    ((∃ err, parceGraphInputLine inputLine = .error err) ↔
      ((Split inputLine 32).length < 3 ∨
        ¬ ∃ w, IsBase10Int ((Split inputLine 32).getD 2 []) w ∧ RepresentableInt w)) ∧
    (∀ {G : Type} (api : GraphAPI G) (pre post : List GoString) (err : GoError),
      (∀ l ∈ pre, Scannable l ∧ ∃ r, parceGraphInputLine l = .ok r) →
      Scannable inputLine →
      parceGraphInputLine inputLine = .error err →
      setupGraph api (.ok (fileOfLines (pre ++ inputLine :: post))) =
          ((setupGraph api (.ok (fileOfLines pre))).1, some err) ∧
        init api (.ok (fileOfLines (pre ++ inputLine :: post))) = .fatal err) ∧
    (∀ {G : Type} (api : GraphAPI G) (pre : List GoString) (rest : GoString),
      (∀ l ∈ pre, Scannable l ∧ ∃ r, parceGraphInputLine l = .ok r) →
      10 ∉ inputLine →
      inputLine.length ≥ MaxScanTokenSize →
      setupGraph api (.ok (fileOfLines pre ++ (inputLine ++ 10 :: rest))) =
          ((setupGraph api (.ok (fileOfLines pre))).1, none) ∧
        init api (.ok (fileOfLines pre ++ (inputLine ++ 10 :: rest))) =
          .ret (setupGraph api (.ok (fileOfLines pre))).1) := by
  refine ⟨parceGraphInputLine_fails_iff inputLine, ?_, ?_⟩
  · intro G api pre post err hpre hline hbad
    have hs : ∀ l ∈ pre, Scannable l := fun l hl => (hpre l hl).1
    have hp : ∀ l ∈ pre, ∃ r, parceGraphInputLine l = .ok r := fun l hl => (hpre l hl).2
    have h : setupGraph api (.ok (fileOfLines (pre ++ inputLine :: post))) =
        ((setupGraph api (.ok (fileOfLines pre))).1, some err) := by
      simp only [setupGraph]
      rw [fileOfLines_append, scanLines_fileOfLines_append pre _ hs, scanLines_fileOfLines pre hs]
      simp only [fileOfLines]
      rw [scanLines_scannable inputLine _ hline]
      exact setupGraphLoop_append_error api pre _ inputLine err _ hp hbad
    refine ⟨h, ?_⟩
    unfold init
    rw [h]
  · intro G api pre rest hpre hnl hlen
    have hs : ∀ l ∈ pre, Scannable l := fun l hl => (hpre l hl).1
    have hp : ∀ l ∈ pre, ∃ r, parceGraphInputLine l = .ok r := fun l hl => (hpre l hl).2
    have h : setupGraph api (.ok (fileOfLines pre ++ (inputLine ++ 10 :: rest))) =
        ((setupGraph api (.ok (fileOfLines pre))).1, none) := by
      simp only [setupGraph]
      rw [scanLines_fileOfLines_too_long pre inputLine rest hs hnl hlen,
        scanLines_fileOfLines pre hs]
      exact setupGraphLoop_of_ok api pre _ hp
    refine ⟨h, ?_⟩
    unfold init
    rw [h]

/-- C8 at concrete files.  In the file of the lines `A B 1`, `A B x`, `B C 2`
the second line has a weight that is no integer: loading stops there with the
error of `strconv.ParseInt`.  In the file whose second line is 70000 bytes `a`,
a line of one token, loading ends after the first line without an error and the
process starts with the one edge of the first line. -/
theorem parceGraphInputLine_error_iff_witness :
    ((Split (str "A B x") 32).length < 3 ∨
      ¬ ∃ w, IsBase10Int ((Split (str "A B x") 32).getD 2 []) w ∧ RepresentableInt w) ∧
    (setupGraph traceAPI (.ok (fileOfLines ([str "A B 1"] ++ str "A B x" :: [str "B C 2"]))) =
        ([(str "A", str "B", 1)], some (.numError (str "ParseInt") (str "x") ErrSyntax)) ∧
      init traceAPI (.ok (fileOfLines ([str "A B 1"] ++ str "A B x" :: [str "B C 2"]))) =
        .fatal (.numError (str "ParseInt") (str "x") ErrSyntax)) ∧
    (∃ err, parceGraphInputLine overlongName = .error err) ∧
    (setupGraph traceAPI
          (.ok (fileOfLines [str "A B 1"] ++ (overlongName ++ 10 :: str "B C 2\n"))) =
        ([(str "A", str "B", 1)], none) ∧
      init traceAPI (.ok (fileOfLines [str "A B 1"] ++ (overlongName ++ 10 :: str "B C 2\n"))) =
        .ret [(str "A", str "B", 1)]) :=
  ⟨(parceGraphInputLine_error_iff (str "A B x")).1.1 ⟨_, rfl⟩,
    (parceGraphInputLine_error_iff (str "A B x")).2.1 traceAPI [str "A B 1"] [str "B C 2"]
      (.numError (str "ParseInt") (str "x") ErrSyntax)
      (by intro l hl; rw [List.mem_singleton.1 hl]; exact ⟨by decide, _, rfl⟩) (by decide) rfl,
    (parceGraphInputLine_error_iff overlongName).1.2
      (Or.inl (by rw [Split_of_not_mem overlongName 32 (not_mem_overlongName 32 (by decide))]
                  decide)),
    (parceGraphInputLine_error_iff overlongName).2.2 traceAPI [str "A B 1"] (str "B C 2\n")
      (by intro l hl; rw [List.mem_singleton.1 hl]; exact ⟨by decide, _, rfl⟩)
      (not_mem_overlongName 10 (by decide))
      (by rw [length_overlongName]; decide)⟩

/-- C9: for a list of edges whose source and destination contain no space
and whose weight is an `int`, each line `<source> <destination> <weight>`
parses to exactly its edge.  When moreover no source or destination contains a
newline and every line is shorter than `MaxScanTokenSize`, `setupGraph` on the
file of these lines, with or without the newline at its end, succeeds with the
graph obtained from the new graph by one `AddEdge` per line, in order.  When
the lines are such up to a line of `MaxScanTokenSize` bytes or more, the
scanner stops at that line with an error that `setupGraph` does not read:
`setupGraph` succeeds with the edges of the lines before it only. -/
theorem setupGraph_edgeLines {G : Type} (api : GraphAPI G) (edges : List (Node × Node × Int))
    (h : ∀ e ∈ edges, 32 ∉ e.1 ∧ 32 ∉ e.2.1 ∧ RepresentableInt e.2.2) :
    (∀ e ∈ edges, parceGraphInputLine (edgeLine e.1 e.2.1 e.2.2) = .ok e) ∧
    ((∀ e ∈ edges, 10 ∉ e.1 ∧ 10 ∉ e.2.1 ∧
        (edgeLine e.1 e.2.1 e.2.2).length < MaxScanTokenSize) →
      setupGraph api (.ok (fileOfLines (edges.map fun e => edgeLine e.1 e.2.1 e.2.2))) =
          (edges.foldl (fun g e => api.AddEdge g e.1 e.2.1 e.2.2) api.NewGraph, none) ∧
        setupGraph api
            (.ok (fileOfLines (edges.map fun e => edgeLine e.1 e.2.1 e.2.2)).dropLast) =
          (edges.foldl (fun g e => api.AddEdge g e.1 e.2.1 e.2.2) api.NewGraph, none)) ∧
    (∀ (pre post : List (Node × Node × Int)) (long : Node × Node × Int),
      edges = pre ++ long :: post →
      (∀ e ∈ pre, 10 ∉ e.1 ∧ 10 ∉ e.2.1 ∧
        (edgeLine e.1 e.2.1 e.2.2).length < MaxScanTokenSize) →
      10 ∉ long.1 → 10 ∉ long.2.1 →
      (edgeLine long.1 long.2.1 long.2.2).length ≥ MaxScanTokenSize →
      setupGraph api (.ok (fileOfLines (edges.map fun e => edgeLine e.1 e.2.1 e.2.2))) =
        (pre.foldl (fun g e => api.AddEdge g e.1 e.2.1 e.2.2) api.NewGraph, none)) := by
  refine ⟨?_, ?_, ?_⟩
  · intro e he
    obtain ⟨h1, h2, h3⟩ := h e he
    exact parceGraphInputLine_edgeLine e.1 e.2.1 e.2.2 h1 h2 h3
  · intro hb
    have hs : ∀ l ∈ edges.map (fun e => edgeLine e.1 e.2.1 e.2.2), Scannable l ∧ l ≠ [] := by
      intro l hl
      obtain ⟨e, he, rfl⟩ := List.mem_map.1 hl
      obtain ⟨h1, h2, h3⟩ := hb e he
      exact scannable_edgeLine e.1 e.2.1 e.2.2 h1 h2 h3
    constructor
    · simp only [setupGraph]
      rw [scanLines_fileOfLines _ (fun l hl => (hs l hl).1)]
      exact setupGraphLoop_edgeLines api edges h _
    · simp only [setupGraph]
      rw [scanLines_fileOfLines_dropLast _ hs]
      exact setupGraphLoop_edgeLines api edges h _
  · intro pre post long he hb h1 h2 hlen
    subst he
    have hs : ∀ l ∈ pre.map (fun e => edgeLine e.1 e.2.1 e.2.2), Scannable l := by
      intro l hl
      obtain ⟨e, he, rfl⟩ := List.mem_map.1 hl
      obtain ⟨h1, h2, h3⟩ := hb e he
      exact (scannable_edgeLine e.1 e.2.1 e.2.2 h1 h2 h3).1
    simp only [setupGraph, List.map_append, List.map_cons]
    rw [fileOfLines_append]
    simp only [fileOfLines]
    rw [scanLines_fileOfLines_too_long _ _ _ hs
      (newline_not_mem_edgeLine long.1 long.2.1 long.2.2 h1 h2) hlen]
    exact setupGraphLoop_edgeLines api pre (fun e he => h e (by simp [he])) _

/-- C9 at concrete files.  For the file `A B 1`, `B C 2`, `A C 10` the calls of
`AddEdge` that `setupGraph` makes are these three edges, in this order.  For
the file whose second line has a source of 70000 bytes `a`, the only call is
the edge of the first line, and no error is returned. -/
theorem setupGraph_edgeLines_witness :
    parceGraphInputLine (str "A C 10") = .ok (str "A", str "C", 10) ∧
    setupGraph traceAPI (.ok (str "A B 1\nB C 2\nA C 10\n")) =
      ([(str "A", str "B", 1), (str "B", str "C", 2), (str "A", str "C", 10)], none) ∧
    setupGraph traceAPI (.ok (str "A B 1\nB C 2\nA C 10")) =
      ([(str "A", str "B", 1), (str "B", str "C", 2), (str "A", str "C", 10)], none) ∧
    parceGraphInputLine (edgeLine overlongName (str "B") 2) = .ok (overlongName, str "B", 2) ∧
    setupGraph traceAPI
        (.ok (fileOfLines ([(str "A", str "B", (1 : Int)), (overlongName, str "B", 2),
          (str "B", str "C", 3)].map fun e => edgeLine e.1 e.2.1 e.2.2))) =
      ([(str "A", str "B", 1)], none) :=
  have h := setupGraph_edgeLines traceAPI
    [(str "A", str "B", 1), (str "B", str "C", 2), (str "A", str "C", 10)] (by decide)
  have hl := setupGraph_edgeLines traceAPI
    [(str "A", str "B", 1), (overlongName, str "B", 2), (str "B", str "C", 3)]
    (by
      intro e he
      simp only [List.mem_cons, List.mem_singleton, List.not_mem_nil, or_false] at he
      rcases he with rfl | rfl | rfl
      · decide
      · exact ⟨not_mem_overlongName 32 (by decide), by decide, by decide⟩
      · decide)
  ⟨h.1 (str "A", str "C", 10) (by decide), (h.2.1 (by decide)).1, (h.2.1 (by decide)).2,
    hl.1 (overlongName, str "B", 2) (by simp),
    hl.2.2 [(str "A", str "B", 1)] [(str "B", str "C", 3)] (overlongName, str "B", 2) rfl
      (by decide) (not_mem_overlongName 10 (by decide)) (by decide)
      (overlong_edgeLine (str "B") 2)⟩

/-- C10: a line `<source> <destination> <weight>` whose weight is the decimal
rendering of a negative `int` `w` (it starts with a minus sign) parses to
`(source, destination, w)`, and the loop of `setupGraph` passes `w` to
`AddEdge` and goes on without an error.  When the line has no newline in it
and is shorter than `MaxScanTokenSize`, `setupGraph` on the file of this one
line succeeds with the graph of this edge.  When the line has
`MaxScanTokenSize` bytes or more, the scanner stops at it with an error that
`setupGraph` does not read: `setupGraph` succeeds with the new graph, the
edge is not recorded. -/
theorem negative_weight_accepted {G : Type} (api : GraphAPI G) (source destination : Node)
    (w : Int) (hs : 32 ∉ source) (hd : 32 ∉ destination) (hneg : w < 0)
    (hw : RepresentableInt w) :
    (Itoa w).head? = some 45 ∧
      parceGraphInputLine (edgeLine source destination w) = .ok (source, destination, w) ∧
      (∀ g rest, setupGraphLoop api g (edgeLine source destination w :: rest) =
        setupGraphLoop api (api.AddEdge g source destination w) rest) ∧
      (10 ∉ source → 10 ∉ destination →
        (edgeLine source destination w).length < MaxScanTokenSize →
        setupGraph api (.ok (fileOfLines [edgeLine source destination w])) =
          (api.AddEdge api.NewGraph source destination w, none)) ∧
      (10 ∉ source → 10 ∉ destination →
        (edgeLine source destination w).length ≥ MaxScanTokenSize →
        setupGraph api (.ok (fileOfLines [edgeLine source destination w])) =
          (api.NewGraph, none)) := by
  have hp := parceGraphInputLine_edgeLine source destination w hs hd hw
  refine ⟨by simp [Itoa, hneg], hp, ?_, ?_, ?_⟩
  · intro g rest
    simp only [setupGraphLoop, hp]
  · intro h1 h2 hlen
    have hsc := (scannable_edgeLine source destination w h1 h2 hlen).1
    simp only [setupGraph]
    rw [scanLines_fileOfLines [edgeLine source destination w]
      (by intro l hl; rw [List.mem_singleton.1 hl]; exact hsc)]
    simp only [setupGraphLoop, hp]
  · intro h1 h2 hlen
    simp only [setupGraph, fileOfLines]
    rw [scanLines_too_long _ _ (newline_not_mem_edgeLine source destination w h1 h2) hlen]
    rfl

/-- C10 at concrete lines.  For the line `A B -7` the edge recorded has weight
`-7`.  For the line whose source is 70000 bytes `a`, with weight `-7`, the line
parses to its edge and `setupGraph` records nothing. -/
theorem negative_weight_accepted_witness :
    ((Itoa (-7)).head? = some 45 ∧
      parceGraphInputLine (str "A B -7") = .ok (str "A", str "B", -7) ∧
      setupGraph traceAPI (.ok (str "A B -7\n")) = ([(str "A", str "B", -7)], none)) ∧
    (parceGraphInputLine (edgeLine overlongName (str "B") (-7)) =
        .ok (overlongName, str "B", -7) ∧
      setupGraph traceAPI (.ok (fileOfLines [edgeLine overlongName (str "B") (-7)])) =
        ([], none)) :=
  have h := negative_weight_accepted traceAPI (str "A") (str "B") (-7) (by decide) (by decide)
    (by decide) (by decide)
  have hl := negative_weight_accepted traceAPI overlongName (str "B") (-7)
    (not_mem_overlongName 32 (by decide)) (by decide) (by decide) (by decide)
  ⟨⟨h.1, h.2.1, h.2.2.2.1 (by decide) (by decide) (by decide)⟩,
    hl.2.1,
    hl.2.2.2.2 (not_mem_overlongName 10 (by decide)) (by decide)
      (overlong_edgeLine (str "B") (-7))⟩

end PathServer
